import Mathlib

/-!
Verification development for the recurrence-rule translation core of the
frappe Google Calendar integration
(`frappe/integrations/doctype/google_calendar/google_calendar.py`).

The Python functions `google_calendar_to_repeat_on`,
`repeat_on_to_google_calendar_recurrence_rule`, `get_week_number`,
`parse_google_calendar_recurrence_rule`, `get_recurrence_parameters` and their
mapping tables are embedded shallowly: dates are proleptic-Gregorian civil
dates, Python `dict`s become association lists or Option-returning functions,
Python exceptions become an explicit error type, and the two unbounded `while`
loops of the Nth-weekday-of-month solver are given an explicit fuel parameter.
-/

namespace Frappe

/-! ## Civil dates (model of Python `datetime.date` / `datetime.datetime`) -/

/-- Gregorian leap-year test (as implemented by Python's `calendar`). -/
def isLeap (y : Nat) : Bool :=
  (y % 4 == 0 && y % 100 != 0) || y % 400 == 0

/-- Number of days of month `m` in year `y`. -/
def monthLen (y m : Nat) : Nat :=
  if m = 2 then (if isLeap y then 29 else 28)
  else if m = 4 ∨ m = 6 ∨ m = 9 ∨ m = 11 then 30
  else 31

/-- A civil (year, month, day) date. -/
structure Date where
  y : Nat
  m : Nat
  d : Nat
deriving DecidableEq, Repr

/-- Validity of a civil date (year at least 1, as for Python `datetime`). -/
def Date.Valid (x : Date) : Prop :=
  1 ≤ x.y ∧ 1 ≤ x.m ∧ x.m ≤ 12 ∧ 1 ≤ x.d ∧ x.d ≤ monthLen x.y x.m

instance (x : Date) : Decidable x.Valid := by
  unfold Date.Valid; infer_instance

/-- Day count of a date, measured from 0000-03-01 (Gregorian, proleptic);
the standard days-from-civil computation. Used only to define the weekday. -/
def daysCivil (x : Date) : Nat :=
  let yy := if x.m ≤ 2 then x.y - 1 else x.y
  let era := yy / 400
  let yoe := yy % 400
  let mp := (x.m + 9) % 12
  let doy := (153 * mp + 2) / 5 + x.d - 1
  era * 146097 + yoe * 365 + yoe / 4 - yoe / 100 + doy

/-- Weekday in Python's convention (`date.weekday()`): Monday = 0 … Sunday = 6.
0000-03-01 is a Wednesday (= 2). -/
def pyWeekday (x : Date) : Nat :=
  (daysCivil x + 2) % 7

/-- Successor day (rolls over month and year boundaries). -/
def nextDay (x : Date) : Date :=
  if x.d < monthLen x.y x.m then ⟨x.y, x.m, x.d + 1⟩
  else if x.m < 12 then ⟨x.y, x.m + 1, 1⟩
  else ⟨x.y + 1, 1, 1⟩

/-- Predecessor day. -/
def prevDay (x : Date) : Date :=
  if 1 < x.d then ⟨x.y, x.m, x.d - 1⟩
  else if 1 < x.m then ⟨x.y, x.m - 1, monthLen x.y (x.m - 1)⟩
  else ⟨x.y - 1, 12, 31⟩

/-- `add_days(x, n)` for `n ≥ 0` (model of `frappe.utils.add_days`). -/
def addDays (n : Nat) (x : Date) : Date :=
  Nat.iterate nextDay n x

/-- Going back `n` days. -/
def subDays (n : Nat) (x : Date) : Date :=
  Nat.iterate prevDay n x

/-- A timestamp: a civil date plus minutes since midnight.  The source only
moves timestamps by whole days/weeks and once by 5 minutes, so minute
granularity suffices. -/
structure DateTime where
  date : Date
  mins : Nat
deriving DecidableEq, Repr

/-- `add_to_date(t, minutes=n)` (model of `frappe.utils.add_to_date`),
rolling minute overflow into following days. -/
def addMinutes (n : Nat) (t : DateTime) : DateTime :=
  ⟨addDays ((t.mins + n) / 1440) t.date, (t.mins + n) % 1440⟩

/-! ## Python string primitives

Python `in` (substring test) and single-character `str.split`, implemented by
structural recursion on the character list so that concrete instances reduce. -/

/-- Character-list prefix test. -/
def isPre : List Char → List Char → Bool
  | [], _ => true
  | _ :: _, [] => false
  | a :: as, b :: bs => a == b && isPre as bs

/-- Character-list substring test (`needle in hay` for Python strings). -/
def isSub (n : List Char) : List Char → Bool
  | [] => n.isEmpty
  | c :: rest => isPre n (c :: rest) || isSub n rest

/-- Python's `needle in hay` on strings. -/
def pyContains (needle hay : String) : Bool :=
  isSub needle.data hay.data

/-- Split a character list on every occurrence of `sep`. -/
def splitChar (sep : Char) : List Char → List (List Char)
  | [] => [[]]
  | c :: rest =>
    let r := splitChar sep rest
    if c = sep then [] :: r
    else
      match r with
      | [] => [[c]]
      | h :: t => (c :: h) :: t

/-- Python `s.split(sep)` for a single-character separator (the source only
splits on `"="` and `","`). -/
def pySplit (s : String) (sep : Char) : List String :=
  (splitChar sep s.data).map String.mk

/-- ASCII lowercasing (`str.lower()`). -/
def lowerStr (s : String) : String :=
  String.mk (s.data.map Char.toLower)

/-- Decimal digits to a natural number. -/
def digitsToNat : List Char → Nat → Nat
  | [], acc => acc
  | c :: rest, acc => digitsToNat rest (acc * 10 + (c.toNat - 48))

/-- Python `int(s)` on the strings the source feeds it
(an optional minus sign followed by digits). -/
def pyInt (s : String) : Int :=
  match s.data with
  | '-' :: rest => -(digitsToNat rest 0 : Int)
  | l => (digitsToNat l 0 : Int)

/-! ## Error model

Python exceptions raised (or raisable) by the translated code. -/

inductive PyErr where
  /-- `dict[key]` with a missing key (a `LookupError`). -/
  | keyError
  /-- e.g. `int(None)`, `None[k] = v`, `str + None`. -/
  | typeError
  /-- `list[1]` on a too-short list (a `LookupError`). -/
  | indexError
  /-- fuel ran out: models non-termination of a `while` loop. -/
  | fuelExhausted
deriving DecidableEq, Repr

/-! ## The mapping tables (google_calendar.py lines 30-62) -/

/-- `google_calendar_frequencies` as a key-lookup function; `none` models a
missing key (so `.get` is `google_calendar_frequencies k` directly and a
subscript is a match on it). -/
def google_calendar_frequencies : String → Option String
  | "RRULE:FREQ=DAILY" => some "Daily"
  | "RRULE:FREQ=WEEKLY" => some "Weekly"
  | "RRULE:FREQ=MONTHLY" => some "Monthly"
  | "RRULE:FREQ=YEARLY" => some "Yearly"
  | _ => none

/-- `google_calendar_days`. -/
def google_calendar_days : String → Option String
  | "MO" => some "monday"
  | "TU" => some "tuesday"
  | "WE" => some "wednesday"
  | "TH" => some "thursday"
  | "FR" => some "friday"
  | "SA" => some "saturday"
  | "SU" => some "sunday"
  | _ => none

/-- `framework_days`. -/
def framework_days : String → Option String
  | "monday" => some "MO"
  | "tuesday" => some "TU"
  | "wednesday" => some "WE"
  | "thursday" => some "TH"
  | "friday" => some "FR"
  | "saturday" => some "SA"
  | "sunday" => some "SU"
  | _ => none

/-- Values stored in a recurrence-rule dict: strings, lists of
`framework_days.get` results, or dates (for `UNTIL`). -/
inductive RVal where
  | s (v : String)
  | sl (v : List (Option String))
  | dt (v : Date)
deriving DecidableEq, Repr

/-- A recurrence rule: an insertion-ordered Python dict. -/
abbrev Rule := List (String × RVal)

/-- The mutable module-level table `framework_frequencies`: an
insertion-ordered dict from frequency name to rule dict. -/
abbrev FreqTable := List (String × Rule)

/-- Python `dict.get` / `dict[k]` read on an ordered dict. -/
def dictFind (k : String) : List (String × α) → Option α
  | [] => none
  | (a, b) :: t => if a = k then some b else dictFind k t

/-- Python `dict[k] = v` on an ordered dict: update in place, else append. -/
def dictSet (k : String) (v : α) : List (String × α) → List (String × α)
  | [] => [(k, v)]
  | (a, b) :: t => if a = k then (a, v) :: t else (a, b) :: dictSet k v t

/-- The initial value of the module-level `framework_frequencies` table
(note the malformed `Yearly` entry, verbatim from the source). -/
def framework_frequencies : FreqTable :=
  [("Daily", [("FREQ", .s "DAILY")]),
   ("Weekly", [("FREQ", .s "WEEKLY")]),
   ("Monthly", [("FREQ", .s "MONTHLY")]),
   ("Yearly", [("FREQ", .s "FREQ=YEARLY")])]

/-- Modelled from the spec: `frappe.utils.get_weekdays` is not part of the
excerpt; per the spec the weekday enumeration is canonical Monday-first
English weekday names. -/
def get_weekdays : List String :=
  ["Monday", "Tuesday", "Wednesday", "Thursday", "Friday", "Saturday", "Sunday"]

/-! ## get_week_number (lines 550-562) -/

/-- `get_week_number(dt)`: `ceil((dt.day + first_day.weekday()) / 7)`.
`(a + 6) / 7` is the exact ceiling of `a / 7`; for the range involved
(`a ≤ 37`) Python's float division and `math.ceil` compute the same value. -/
def get_week_number (x : Date) : Nat :=
  (x.d + pyWeekday ⟨x.y, x.m, 1⟩ + 6) / 7

/-! ## get_recurrence_parameters (lines 565-578) -/

/-- `get_recurrence_parameters(recurrence)`: one pass over the token list;
each token containing `"FREQ"` overwrites `frequency`, else one containing
`"UNTIL"` overwrites `until`, else one containing `"BYDAY"` overwrites
`byday`; all other tokens are skipped. -/
def get_recurrence_parameters (recurrence : List String) :
    Option String × Option String × Option String :=
  recurrence.foldl
    (fun acc r =>
      if pyContains "FREQ" r then (some r, acc.2.1, acc.2.2)
      else if pyContains "UNTIL" r then (acc.1, some r, acc.2.2)
      else if pyContains "BYDAY" r then (acc.1, acc.2.1, some r)
      else acc)
    (none, none, none)

/-! ## parse_google_calendar_recurrence_rule (lines 503-529)

The two source `while` loops carry no bound; each gets a fuel parameter, and
exhausting fuel (`none`) models non-termination. -/

/-- First source loop: step one day at a time until the current weekday's
lowercased name equals `repeat_day_name` (which is `None`-able in the source,
hence `Option String`; a `none` never compares equal). -/
def alignDayLoop (repeat_day_name : Option String) : Nat → DateTime → Option DateTime
  | 0, _ => none
  | fuel + 1, t =>
    if some (lowerStr (get_weekdays.getD (pyWeekday t.date) "")) = repeat_day_name then some t
    else alignDayLoop repeat_day_name fuel ⟨addDays 1 t.date, t.mins⟩

/-- Second source loop: compare `get_week_number` of the candidate with the
target and move one week forward (below target) or backward (above). -/
def weekLoop (target : Int) : Nat → DateTime → Option DateTime
  | 0, _ => none
  | fuel + 1, t =>
    if (get_week_number t.date : Int) = target then some t
    else if (get_week_number t.date : Int) < target then
      weekLoop target fuel ⟨addDays 7 t.date, t.mins⟩
    else
      weekLoop target fuel ⟨subDays 7 t.date, t.mins⟩

/-- `parse_google_calendar_recurrence_rule(week_number, day_name)`, with the
current moment `now` (the source's `now_datetime()`) made explicit.  Negative
week numbers are clamped to 4 before the loops run. -/
def parse_google_calendar_recurrence_rule (fuel : Nat) (now : DateTime)
    (repeat_day_week_number : Int) (repeat_day_name : Option String) : Option DateTime :=
  let wn : Int := if repeat_day_week_number < 0 then 4 else repeat_day_week_number
  (alignDayLoop repeat_day_name fuel now).bind (weekLoop wn fuel)

/-- The solver terminates on the given inputs (some fuel suffices). -/
def SolverTerminates (now : DateTime) (wn : Int) (name : Option String) : Prop :=
  ∃ fuel, (parse_google_calendar_recurrence_rule fuel now wn name).isSome

/-! ## google_calendar_to_repeat_on (lines 411-474) -/

/-- A heterogeneous value as stored in the `repeat_till` slot: the source puts
either `None`, the raw `UNTIL` token (a string), or — per the spec's data
model — a date there; the `== "Yearly"` comparison needs the distinction. -/
inductive PyVal where
  | str (s : String)
  | dt (t : DateTime)
deriving DecidableEq, Repr

/-- The `repeat_on` dict built by `google_calendar_to_repeat_on`
(weekday flags as booleans for the source's `0`/`1` ints). -/
structure RepeatOn where
  starts_on : DateTime
  ends_on : Option DateTime
  all_day : Bool
  repeat_this_event : Bool
  repeat_on : Option String
  repeat_till : Option PyVal
  sunday : Bool
  monday : Bool
  tuesday : Bool
  wednesday : Bool
  thursday : Bool
  friday : Bool
  saturday : Bool
deriving DecidableEq, Repr

/-- The record seeded at the top of `google_calendar_to_repeat_on`.
Modelled from the spec: `frappe.utils.get_datetime` is not in the excerpt;
per the spec the record is seeded with `starts_on`/`ends_on` from the raw
start/end values, `all_day` iff no end is supplied, `repeat_this_event` iff
one is. -/
def seedRepeatOn (start : DateTime) (endOpt : Option DateTime) : RepeatOn :=
  { starts_on := start
    ends_on := endOpt
    all_day := endOpt.isNone
    repeat_this_event := endOpt.isSome
    repeat_on := none
    repeat_till := none
    sunday := false
    monday := false
    tuesday := false
    wednesday := false
    thursday := false
    friday := false
    saturday := false }

/-- `repeat_on[day_name] = 1` for the seven lowercase weekday names. -/
def setDay (r : RepeatOn) : String → RepeatOn
  | "sunday" => { r with sunday := true }
  | "monday" => { r with monday := true }
  | "tuesday" => { r with tuesday := true }
  | "wednesday" => { r with wednesday := true }
  | "thursday" => { r with thursday := true }
  | "friday" => { r with friday := true }
  | "saturday" => { r with saturday := true }
  | _ => r

/-- The Weekly loop body: `repeat_on[google_calendar_days[repeat_day]] = 1`
for each code; the subscript lookup raises `KeyError` on an unknown code. -/
def setWeekdayFlags (r : RepeatOn) : List String → Except PyErr RepeatOn
  | [] => .ok r
  | c :: rest =>
    match google_calendar_days c with
    | some name => setWeekdayFlags (setDay r name) rest
    | none => .error .keyError

/-- The Daily branch (lines 440-442). -/
def dailyBranch (u : Option String) (r : RepeatOn) : RepeatOn :=
  if r.repeat_on = some "Daily" then
    { r with ends_on := none, repeat_till := u.map PyVal.str }
  else r

/-- The Weekly branch (lines 444-448): guarded by `byday` being truthy
(`None` and the empty string are falsy) and the frequency being Weekly. -/
def weeklyBranch (u : Option String) (byday : Option String) (r : RepeatOn) :
    Except PyErr RepeatOn :=
  match byday with
  | none => .ok r
  | some bs =>
    if bs ≠ "" ∧ r.repeat_on = some "Weekly" then
      match pySplit bs '=' with
      | _ :: v :: _ =>
        setWeekdayFlags { r with repeat_till := u.map PyVal.str } (pySplit v ',')
      | _ => .error .indexError
    else .ok r

/-- The ordered week-number candidates searched in the Monthly branch. -/
def monthlyNums : List String := ["-2", "-1", "1", "2", "3", "4", "5"]

/-- The ordered weekday codes searched in the Monthly branch. -/
def monthlyDays : List String := ["MO", "TU", "WE", "TH", "FR", "SA", "SU"]

/-- First candidate occurring as a substring of `v` (the source's
`for … if num in byday: … break`). -/
def firstMatch (cands : List String) (v : String) : Option String :=
  cands.find? (fun num => isSub num.data v.data)

/-- The Monthly branch (lines 450-468): extract week number and weekday from
the `BYDAY` value, run the solver, and set `starts_on`, `ends_on`
(5 minutes later) and `repeat_till`.  `int(None)` is a `TypeError`. -/
def monthlyBranch (fuel : Nat) (now : DateTime) (u : Option String)
    (byday : Option String) (r : RepeatOn) : Except PyErr RepeatOn :=
  match byday with
  | none => .ok r
  | some bs =>
    if bs ≠ "" ∧ r.repeat_on = some "Monthly" then
      match pySplit bs '=' with
      | _ :: v :: _ =>
        let repeat_day_name := (firstMatch monthlyDays v).bind google_calendar_days
        match firstMatch monthlyNums v with
        | none => .error .typeError
        | some numStr =>
          match parse_google_calendar_recurrence_rule fuel now (pyInt numStr)
              repeat_day_name with
          | some start_date =>
            .ok { r with
                  starts_on := start_date
                  ends_on := some (addMinutes 5 start_date)
                  repeat_till := u.map PyVal.str }
          | none => .error .fuelExhausted
      | _ => .error .indexError
    else .ok r

/-- The final check (lines 470-472): `if repeat_on["repeat_till"] == "Yearly"`. -/
def yearlyGuard (u : Option String) (r : RepeatOn) : RepeatOn :=
  if r.repeat_till = some (PyVal.str "Yearly") then
    { r with ends_on := none, repeat_till := u.map PyVal.str }
  else r

/-- `google_calendar_to_repeat_on(start, end, recurrence)`.  `fuel` bounds the
solver's loops and `now` is the source's ambient `now_datetime()`;
an empty `recurrence` models Python's falsy `None`/`[]`. -/
def google_calendar_to_repeat_on (fuel : Nat) (now : DateTime) (start : DateTime)
    (endOpt : Option DateTime) (recurrence : List String) : Except PyErr RepeatOn :=
  let repeat_on0 := seedRepeatOn start endOpt
  if recurrence = [] then .ok repeat_on0
  else
    match get_recurrence_parameters recurrence with
    | (google_calendar_frequency, u, byday) => do
      let r1 := { repeat_on0 with
                  repeat_on := google_calendar_frequency.bind google_calendar_frequencies }
      let r2 := dailyBranch u r1
      let r3 ← weeklyBranch u byday r2
      let r4 ← monthlyBranch fuel now u byday r3
      .ok (yearlyGuard u r4)

/-! ## repeat_on_to_google_calendar_recurrence_rule (lines 532-547)

`framework_frequencies.get(doc.repeat_on)` returns the table's own entry, so
every `recurrence[k] = v` also mutates the module-level table; the embedding
threads the table state explicitly and writes every assignment back. -/

/-- The doc fields read by the reverse translator. `repeat_till` is a date
(modelled from the spec: `frappe.utils.getdate` is not in the excerpt and per
the spec parses `repeat_till` to a date). -/
structure EventDoc where
  repeat_on : Option String
  starts_on : DateTime
  repeat_till : Option Date
  monday : Bool
  tuesday : Bool
  wednesday : Bool
  thursday : Bool
  friday : Bool
  saturday : Bool
  sunday : Bool
deriving DecidableEq, Repr

/-- `doc.get(name)` for the lowercase weekday fields (missing keys are falsy). -/
def EventDoc.get (doc : EventDoc) : String → Bool
  | "monday" => doc.monday
  | "tuesday" => doc.tuesday
  | "wednesday" => doc.wednesday
  | "thursday" => doc.thursday
  | "friday" => doc.friday
  | "saturday" => doc.saturday
  | "sunday" => doc.sunday
  | _ => false

/-- `recurrence[k] = v` where `recurrence` aliases `tbl[key]`: mutates the
rule and the aliased table entry together; assigning into `None`
(unknown `repeat_on`) is a `TypeError`. -/
def assignRule (tbl : FreqTable) (key : Option String) (rec : Option Rule)
    (k : String) (v : RVal) : Except PyErr (Option Rule × FreqTable) :=
  match rec, key with
  | some rule, some kk =>
    let rule1 := dictSet k v rule
    .ok (some rule1, dictSet kk rule1 tbl)
  | _, _ => .error .typeError

/-- `repeat_on_to_google_calendar_recurrence_rule(doc)`, with the module
table state `tbl` explicit: returns the rule object (`none` for Python
`None`) and the table state after the call. -/
def repeat_on_to_google_calendar_recurrence_rule (tbl : FreqTable) (doc : EventDoc) :
    Except PyErr (Option Rule × FreqTable) := do
  let recurrence := doc.repeat_on.bind (fun k => dictFind k tbl)
  let weekdays := get_weekdays
  let st1 ←
    if doc.repeat_on = some "Weekly" then
      let byday := (weekdays.filter (fun day => doc.get (lowerStr day))).map
        (fun day => framework_days (lowerStr day))
      assignRule tbl doc.repeat_on recurrence "BYDAY" (RVal.sl byday)
    else if doc.repeat_on = some "Monthly" then
      let week_number := toString (get_week_number doc.starts_on.date)
      let week_day := lowerStr (weekdays.getD (pyWeekday doc.starts_on.date) "")
      match framework_days week_day with
      | some code =>
        assignRule tbl doc.repeat_on recurrence "BYDAY" (RVal.s (week_number ++ code))
      | none => .error .typeError
    else .ok (recurrence, tbl)
  match doc.repeat_till with
  | some till => assignRule st1.2 doc.repeat_on st1.1 "UNTIL" (RVal.dt till)
  | none => .ok st1

/-- Successor month as a (year, month) pair. -/
def nextMonthP : Nat × Nat → Nat × Nat :=
  fun p => if p.2 < 12 then (p.1, p.2 + 1) else (p.1 + 1, 1)

/-- Predecessor month as a (year, month) pair. -/
def prevMonthP : Nat × Nat → Nat × Nat :=
  fun p => if 1 < p.2 then (p.1, p.2 - 1) else (p.1 - 1, 12)

def fMonth (y m : Nat) : Nat := pyWeekday ⟨y, m, 1⟩

/-- Month length as a function of the leap flag. -/
def monthLenL (L : Bool) (m : Nat) : Nat :=
  if m = 2 then (if L then 29 else 28)
  else if m = 4 ∨ m = 6 ∨ m = 9 ∨ m = 11 then 30
  else 31

/-- Days before month `m`, counted from January 1, as a function of the
leap flag. -/
def offM (L : Bool) : Nat → Nat
  | 0 => 0
  | 1 => 0
  | m + 1 => offM L m + monthLenL L m

/-- Weekday `W` reaches week number 5 somewhere in a month whose first day
falls on weekday `f` and that has `len` days. -/
def goodM (W f len : Nat) : Bool :=
  decide (29 ≤ ((W + 7 - f) % 7 + 1) + f + 7 * ((len - ((W + 7 - f) % 7 + 1)) / 7))

/-- First month (1-12) of a year with leap flag `L` and January-1 weekday
`w1` whose first day falls on weekday `r`. -/
def findRes (L : Bool) (w1 r : Nat) : Nat :=
  (((List.range 12).map (· + 1)).find? (fun m => (w1 + offM L m) % 7 == r)).getD 1

/-- First month (1-12) of such a year in which weekday `W` reaches week
number 5. -/
def findGood5 (L : Bool) (w1 W : Nat) : Nat :=
  (((List.range 12).map (· + 1)).find?
    (fun m => goodM W ((w1 + offM L m) % 7) (monthLenL L m))).getD 1

def goodAt (p : Nat × Nat) (W : Nat) : Bool :=
  goodM W (fMonth p.1 p.2) (monthLen p.1 p.2)

def good1At (p : Nat × Nat) (W : Nat) : Bool :=
  decide (fMonth p.1 p.2 ≤ W)

def mIdx (p : Nat × Nat) : Nat := 12 * p.1 + p.2 - 1

/-- The lowercased weekday names, Monday-first (index = Python weekday). -/
def lowerWeekdays : List String :=
  ["monday", "tuesday", "wednesday", "thursday", "friday", "saturday", "sunday"]

def isFreqTok (r : String) : Bool := pyContains "FREQ" r

def isUntilTok (r : String) : Bool := !pyContains "FREQ" r && pyContains "UNTIL" r

def isBydayTok (r : String) : Bool :=
  !pyContains "FREQ" r && !pyContains "UNTIL" r && pyContains "BYDAY" r

def dayNames : List String :=
  ["sunday", "monday", "tuesday", "wednesday", "thursday", "friday", "saturday"]

def dayFlag (r : RepeatOn) : String → Bool
  | "sunday" => r.sunday
  | "monday" => r.monday
  | "tuesday" => r.tuesday
  | "wednesday" => r.wednesday
  | "thursday" => r.thursday
  | "friday" => r.friday
  | "saturday" => r.saturday
  | _ => false

/-- Comparison definition for the dead-branch claim, written from the spec's
description: the translator without the unreachable Yearly clause
(lines 470-472 of the source).  Everything else is identical. -/
def google_calendar_to_repeat_on_noYearly (fuel : Nat) (now : DateTime) (start : DateTime)
    (endOpt : Option DateTime) (recurrence : List String) : Except PyErr RepeatOn :=
  let repeat_on0 := seedRepeatOn start endOpt
  if recurrence = [] then .ok repeat_on0
  else
    match get_recurrence_parameters recurrence with
    | (google_calendar_frequency, u, byday) => do
      let r1 := { repeat_on0 with
                  repeat_on := google_calendar_frequency.bind google_calendar_frequencies }
      let r2 := dailyBranch u r1
      let r3 ← weeklyBranch u byday r2
      let r4 ← monthlyBranch fuel now u byday r3
      .ok r4

/-! ## Supporting lemmas: the civil-calendar layer -/

theorem valid_iff (y m d : Nat) :
    (Date.mk y m d).Valid ↔ 1 ≤ y ∧ 1 ≤ m ∧ m ≤ 12 ∧ 1 ≤ d ∧ d ≤ monthLen y m :=
  Iff.rfl

theorem isLeap_iff (y : Nat) :
    isLeap y = true ↔ ((y % 4 = 0 ∧ ¬ y % 100 = 0) ∨ y % 400 = 0) := by
  simp [isLeap]

theorem monthLen_eq (y m : Nat) :
    monthLen y m = if m = 2 then (if isLeap y then 29 else 28)
      else if m = 4 ∨ m = 6 ∨ m = 9 ∨ m = 11 then 30 else 31 := rfl

theorem monthLen_ge (y m : Nat) : 28 ≤ monthLen y m := by
  rw [monthLen_eq]; split
  · split <;> omega
  · split <;> omega

theorem monthLen_le (y m : Nat) : monthLen y m ≤ 31 := by
  rw [monthLen_eq]; split
  · split <;> omega
  · split <;> omega

theorem daysCivil_le2 {m : Nat} (y d : Nat) (h : m ≤ 2) : daysCivil ⟨y, m, d⟩ =
    (y-1)/400 * 146097 + ((y-1)%400)*365 + ((y-1)%400)/4 - ((y-1)%400)/100
      + ((153*((m+9)%12)+2)/5 + d - 1) := by
  simp [daysCivil, h]

theorem daysCivil_gt2 {m : Nat} (y d : Nat) (h : ¬ m ≤ 2) : daysCivil ⟨y, m, d⟩ =
    y/400 * 146097 + (y%400)*365 + (y%400)/4 - (y%400)/100
      + ((153*((m+9)%12)+2)/5 + d - 1) := by
  simp [daysCivil, h]

theorem nextDay_eq (y m d : Nat) : nextDay ⟨y, m, d⟩ =
    if d < monthLen y m then ⟨y, m, d + 1⟩
    else if m < 12 then ⟨y, m + 1, 1⟩ else ⟨y + 1, 1, 1⟩ := rfl

theorem valid_nextDay {x : Date} (hx : x.Valid) : (nextDay x).Valid := by
  obtain ⟨y, m, d⟩ := x
  rw [valid_iff] at hx
  rw [nextDay_eq]
  split
  · rw [valid_iff]; omega
  · split
    · rw [valid_iff]; have := monthLen_ge y (m + 1); omega
    · rw [valid_iff]; have := monthLen_ge (y + 1) 1; omega

theorem daysCivil_nextDay {x : Date} (hx : x.Valid) :
    daysCivil (nextDay x) = daysCivil x + 1 := by
  obtain ⟨y, m, d⟩ := x
  rw [valid_iff] at hx
  obtain ⟨hy, hm1, hm12u, hd1, hd2⟩ := hx
  rw [nextDay_eq]
  split
  · -- same month
    rename_i hlt
    rcases le_or_lt m 2 with hm | hm
    · rw [daysCivil_le2 _ _ hm, daysCivil_le2 _ _ hm]; omega
    · rw [daysCivil_gt2 _ _ (by omega), daysCivil_gt2 _ _ (by omega)]; omega
  · rename_i hdlen
    split
    · -- month rollover, m < 12
      rename_i hm12
      have hd : d = monthLen y m := by omega
      rw [monthLen_eq] at hd
      clear hd1 hd2
      interval_cases m <;> norm_num at hd
      · rw [daysCivil_le2 _ _ (by omega), daysCivil_le2 _ _ (by omega)]; omega
      · -- Feb -> Mar: the year-arithmetic case
        rw [daysCivil_gt2 _ _ (by omega), daysCivil_le2 _ _ (by omega)]
        rcases eq_or_ne (isLeap y) true with hL | hL
        · rw [if_pos hL] at hd
          rw [isLeap_iff] at hL
          omega
        · rw [if_neg hL] at hd
          have hP : ¬((y % 4 = 0 ∧ ¬ y % 100 = 0) ∨ y % 400 = 0) :=
            fun hp => hL ((isLeap_iff y).mpr hp)
          omega
      · rw [daysCivil_gt2 _ _ (by omega), daysCivil_gt2 _ _ (by omega)]; omega
      · rw [daysCivil_gt2 _ _ (by omega), daysCivil_gt2 _ _ (by omega)]; omega
      · rw [daysCivil_gt2 _ _ (by omega), daysCivil_gt2 _ _ (by omega)]; omega
      · rw [daysCivil_gt2 _ _ (by omega), daysCivil_gt2 _ _ (by omega)]; omega
      · rw [daysCivil_gt2 _ _ (by omega), daysCivil_gt2 _ _ (by omega)]; omega
      · rw [daysCivil_gt2 _ _ (by omega), daysCivil_gt2 _ _ (by omega)]; omega
      · rw [daysCivil_gt2 _ _ (by omega), daysCivil_gt2 _ _ (by omega)]; omega
      · rw [daysCivil_gt2 _ _ (by omega), daysCivil_gt2 _ _ (by omega)]; omega
      · rw [daysCivil_gt2 _ _ (by omega), daysCivil_gt2 _ _ (by omega)]; omega
    · -- year rollover
      rename_i hm12
      have hm : m = 12 := by omega
      subst hm
      have hd : d = 31 := by rw [monthLen_eq] at hdlen hd2; norm_num at hdlen hd2; omega
      subst hd
      rw [daysCivil_le2 (y + 1) 1 (by omega), daysCivil_gt2 y 31 (by omega)]
      omega


theorem addDays_zero (x : Date) : addDays 0 x = x := rfl

theorem addDays_succ (n : Nat) (x : Date) : addDays (n + 1) x = addDays n (nextDay x) :=
  Function.iterate_succ_apply nextDay n x

theorem addDays_succ' (n : Nat) (x : Date) : addDays (n + 1) x = nextDay (addDays n x) :=
  Function.iterate_succ_apply' nextDay n x

theorem addDays_add (a b : Nat) (x : Date) : addDays (a + b) x = addDays a (addDays b x) :=
  Function.iterate_add_apply nextDay a b x

theorem valid_addDays (n : Nat) {x : Date} (hx : x.Valid) : (addDays n x).Valid := by
  induction n with
  | zero => exact hx
  | succ k ih => rw [addDays_succ']; exact valid_nextDay ih

theorem daysCivil_addDays (n : Nat) {x : Date} (hx : x.Valid) :
    daysCivil (addDays n x) = daysCivil x + n := by
  induction n with
  | zero => rfl
  | succ k ih =>
    rw [addDays_succ', daysCivil_nextDay (valid_addDays k hx), ih]
    omega

theorem pyWeekday_lt (x : Date) : pyWeekday x < 7 :=
  Nat.mod_lt _ (by omega)

theorem pyWeekday_addDays (n : Nat) {x : Date} (hx : x.Valid) :
    pyWeekday (addDays n x) = (pyWeekday x + n) % 7 := by
  unfold pyWeekday
  rw [daysCivil_addDays n hx]
  omega

theorem y_le_addDays (n : Nat) (x : Date) : x.y ≤ (addDays n x).y := by
  induction n with
  | zero => exact le_refl _
  | succ k ih =>
    rw [addDays_succ']
    refine le_trans ih ?_
    obtain ⟨y, m, d⟩ := addDays k x
    rw [nextDay_eq]
    split
    · exact le_refl _
    · split
      · exact le_refl _
      · exact Nat.le_succ _

theorem d_pos_addDays (n : Nat) {x : Date} (hd : 1 ≤ x.d) : 1 ≤ (addDays n x).d := by
  induction n with
  | zero => exact hd
  | succ k ih =>
    rw [addDays_succ']
    obtain ⟨y, m, d⟩ := addDays k x
    rw [nextDay_eq]
    split
    · simp
    · split <;> simp

theorem d_pos_subDays (n : Nat) {x : Date} (hd : 1 ≤ x.d) : 1 ≤ (subDays n x).d := by
  induction n with
  | zero => exact hd
  | succ k ih =>
    have : subDays (k + 1) x = prevDay (subDays k x) := Function.iterate_succ_apply' prevDay k x
    rw [this]
    obtain ⟨y, m, d⟩ := subDays k x
    show 1 ≤ (prevDay ⟨y, m, d⟩).d
    unfold prevDay
    dsimp only
    split
    · dsimp only at *; omega
    · split
      · dsimp only; have := monthLen_ge y (m - 1); omega
      · dsimp only; omega

theorem addDays_in_month (k : Nat) : ∀ {y m d : Nat}, (Date.mk y m d).Valid →
    d + k ≤ monthLen y m → addDays k ⟨y, m, d⟩ = ⟨y, m, d + k⟩ := by
  induction k with
  | zero => intro y m d _ _; rfl
  | succ j ih =>
    intro y m d hv h
    rw [valid_iff] at hv
    rw [addDays_succ, nextDay_eq, if_pos (by omega)]
    rw [ih (by rw [valid_iff]; omega) (by omega)]
    congr 1
    omega

theorem subDays_in_month (k : Nat) : ∀ {y m d : Nat}, k < d →
    subDays k ⟨y, m, d⟩ = ⟨y, m, d - k⟩ := by
  induction k with
  | zero => intro y m d _; simp [subDays]
  | succ j ih =>
    intro y m d h
    have h1 : subDays (j + 1) (⟨y, m, d⟩ : Date) = subDays j (prevDay ⟨y, m, d⟩) :=
      Function.iterate_succ_apply prevDay j _
    rw [h1]
    have h2 : prevDay (⟨y, m, d⟩ : Date) = ⟨y, m, d - 1⟩ := by
      unfold prevDay; rw [if_pos (by dsimp only; omega)]
    rw [h2, ih (by omega)]
    congr 1
    omega

theorem nextDay_monthEnd (y m : Nat) :
    nextDay ⟨y, m, monthLen y m⟩ =
      ⟨(nextMonthP (y, m)).1, (nextMonthP (y, m)).2, 1⟩ := by
  rw [nextDay_eq, if_neg (by omega)]
  unfold nextMonthP
  dsimp only
  by_cases h : m < 12
  · rw [if_pos h, if_pos h]
  · rw [if_neg h, if_neg h]

theorem prevDay_monthStart (y m : Nat) :
    prevDay ⟨y, m, 1⟩ =
      ⟨(prevMonthP (y, m)).1, (prevMonthP (y, m)).2,
        monthLen (prevMonthP (y, m)).1 (prevMonthP (y, m)).2⟩ := by
  unfold prevDay prevMonthP
  dsimp only
  rw [if_neg (by omega)]
  by_cases h : 1 < m
  · rw [if_pos h, if_pos h]
  · rw [if_neg h, if_neg h]
    show (⟨y - 1, 12, 31⟩ : Date) = ⟨y - 1, 12, monthLen (y - 1) 12⟩
    rw [show monthLen (y - 1) 12 = 31 from rfl]

theorem addDays7_cross {y m d : Nat} (hv : (Date.mk y m d).Valid)
    (h : monthLen y m < d + 7) :
    addDays 7 ⟨y, m, d⟩ =
      ⟨(nextMonthP (y, m)).1, (nextMonthP (y, m)).2, d + 7 - monthLen y m⟩ := by
  rw [valid_iff] at hv
  set L := monthLen y m with hL
  have h7 : 7 = (d + 7 - L - 1) + 1 + (L - d) := by omega
  rw [h7, addDays_add, addDays_add]
  rw [addDays_in_month (L - d) (by rw [valid_iff]; omega) (by omega)]
  rw [show d + (L - d) = L by omega]
  rw [show addDays 1 (⟨y, m, L⟩ : Date) = nextDay ⟨y, m, L⟩ from rfl]
  rw [hL, nextDay_monthEnd y m]
  have hvn : (Date.mk (nextMonthP (y, m)).1 (nextMonthP (y, m)).2 1).Valid := by
    unfold nextMonthP
    split
    · rw [valid_iff]
      have := monthLen_ge y (m + 1); dsimp only at *
      refine ⟨by omega, by omega, by omega, by omega, by omega⟩
    · rw [valid_iff]
      have := monthLen_ge (y + 1) 1; dsimp only at *
      refine ⟨by omega, by omega, by omega, by omega, by omega⟩
  rw [addDays_in_month _ hvn ?_]
  · congr 1
    omega
  · have h28 := monthLen_ge (nextMonthP (y, m)).1 (nextMonthP (y, m)).2
    have h31 := monthLen_le y m
    omega

theorem subDays_add (a b : Nat) (x : Date) : subDays (a + b) x = subDays a (subDays b x) :=
  Function.iterate_add_apply prevDay a b x

theorem subDays7_cross {y m d : Nat} (hd1 : 1 ≤ d) (hd7 : d ≤ 7) :
    subDays 7 ⟨y, m, d⟩ =
      ⟨(prevMonthP (y, m)).1, (prevMonthP (y, m)).2,
        monthLen (prevMonthP (y, m)).1 (prevMonthP (y, m)).2 - (7 - d)⟩ := by
  have h7 : 7 = (7 - d) + 1 + (d - 1) := by omega
  conv_lhs => rw [h7]
  rw [subDays_add, subDays_add]
  rw [subDays_in_month (d - 1) (by omega)]
  rw [show d - (d - 1) = 1 by omega]
  rw [show subDays 1 (⟨y, m, 1⟩ : Date) = prevDay ⟨y, m, 1⟩ from rfl]
  rw [prevDay_monthStart y m]
  rw [subDays_in_month (7 - d)
    (by have := monthLen_ge (prevMonthP (y, m)).1 (prevMonthP (y, m)).2; omega)]

theorem nextMonthP_prevMonthP {y m : Nat} (hy : 1 ≤ y) (hm1 : 1 ≤ m) (hm : m ≤ 12) :
    nextMonthP (prevMonthP (y, m)) = (y, m) := by
  unfold nextMonthP prevMonthP
  by_cases h : 1 < m
  · rw [if_pos (show 1 < (y, m).2 from h)]
    rw [if_pos (show ((y, m).1, (y, m).2 - 1).2 < 12 by dsimp only; omega)]
    show (y, m - 1 + 1) = (y, m)
    rw [Prod.mk.injEq]
    exact ⟨rfl, by omega⟩
  · rw [if_neg (show ¬ 1 < (y, m).2 from h)]
    rw [if_neg (show ¬ ((y, m).1 - 1, 12).2 < 12 by dsimp only; omega)]
    show (y - 1 + 1, 1) = (y, m)
    rw [Prod.mk.injEq]
    exact ⟨by omega, by omega⟩

theorem daysCivil_dayShift (y m d : Nat) (hd : 1 ≤ d) :
    daysCivil ⟨y, m, d⟩ = daysCivil ⟨y, m, 1⟩ + (d - 1) := by
  rcases le_or_lt m 2 with hm | hm
  · rw [daysCivil_le2 _ _ hm, daysCivil_le2 _ _ hm]; omega
  · rw [daysCivil_gt2 _ _ (by omega), daysCivil_gt2 _ _ (by omega)]; omega

theorem pyWeekday_inMonth (y m d : Nat) (hd : 1 ≤ d) :
    pyWeekday ⟨y, m, d⟩ = (fMonth y m + (d - 1)) % 7 := by
  unfold pyWeekday fMonth pyWeekday
  rw [daysCivil_dayShift y m d hd]
  omega

theorem pyWeekday_fwd7 {x : Date} (hv : x.Valid) :
    pyWeekday (addDays 7 x) = pyWeekday x := by
  rw [pyWeekday_addDays 7 hv]
  have := pyWeekday_lt x
  omega

theorem valid_subDays7 {y m d : Nat} (hv : (Date.mk y m d).Valid)
    (hy2 : 2 ≤ y ∨ 2 ≤ m) : (subDays 7 ⟨y, m, d⟩).Valid := by
  rw [valid_iff] at hv
  by_cases h : 7 < d
  · rw [subDays_in_month 7 h, valid_iff]
    omega
  · rw [subDays7_cross (by omega) (by omega)]
    have h28 := monthLen_ge (prevMonthP (y, m)).1 (prevMonthP (y, m)).2
    rw [valid_iff]
    refine ⟨?_, ?_, ?_, by omega, by omega⟩ <;>
      unfold prevMonthP <;> dsimp only <;> split <;> omega

theorem pyWeekday_back7 {y m d : Nat} (hv : (Date.mk y m d).Valid)
    (hy2 : 2 ≤ y ∨ 2 ≤ m) : pyWeekday (subDays 7 ⟨y, m, d⟩) = pyWeekday ⟨y, m, d⟩ := by
  have hv' := hv
  rw [valid_iff] at hv'
  by_cases h : 7 < d
  · rw [subDays_in_month 7 h]
    rw [pyWeekday_inMonth y m d (by omega), pyWeekday_inMonth y m (d - 7) (by omega)]
    omega
  · rw [subDays7_cross (by omega) (by omega)]
    set pm := prevMonthP (y, m) with hpm
    set pl := monthLen pm.1 pm.2 with hpl
    have h28 : 28 ≤ pl := monthLen_ge pm.1 pm.2
    have hvr : (Date.mk pm.1 pm.2 (pl - (7 - d))).Valid := by
      rw [valid_iff]
      refine ⟨?_, ?_, ?_, by omega, by omega⟩ <;>
        rw [hpm] <;> unfold prevMonthP <;> dsimp only <;> split <;> omega
    have hcross : addDays 7 ⟨pm.1, pm.2, pl - (7 - d)⟩ = ⟨y, m, d⟩ := by
      rw [addDays7_cross hvr (by omega)]
      have hnp : nextMonthP (pm.1, pm.2) = (y, m) := by
        rw [hpm]
        exact nextMonthP_prevMonthP (by omega) (by omega) (by omega)
      rw [show ((pm.1, pm.2) : Nat × Nat) = pm from rfl, hnp]
      congr 1
      omega
    have := pyWeekday_addDays 7 hvr
    rw [hcross] at this
    rw [this]
    have := pyWeekday_lt (Date.mk pm.1 pm.2 (pl - (7 - d)))
    omega

theorem fMonth_succ {y m : Nat} (hy : 1 ≤ y) (hm1 : 1 ≤ m) (hm : m ≤ 11) :
    fMonth y (m + 1) = (fMonth y m + monthLen y m) % 7 := by
  have hv : (Date.mk y m 1).Valid := by
    rw [valid_iff]
    have := monthLen_ge y m
    omega
  have h1 : addDays (monthLen y m) ⟨y, m, 1⟩ = ⟨y, m + 1, 1⟩ := by
    have hlen : monthLen y m = (monthLen y m - 1) + 1 := by
      have := monthLen_ge y m; omega
    rw [hlen, addDays_succ']
    rw [addDays_in_month _ hv (by omega)]
    rw [show 1 + (monthLen y m - 1) = monthLen y m by have := monthLen_ge y m; omega]
    rw [nextDay_monthEnd y m]
    unfold nextMonthP
    dsimp only
    rw [if_pos (by omega)]
  unfold fMonth
  rw [← h1, pyWeekday_addDays _ hv]

theorem fMonth_janSucc {y : Nat} (hy : 1 ≤ y) :
    fMonth (y + 1) 1 = (fMonth y 12 + 31) % 7 := by
  have hv : (Date.mk y 12 1).Valid := by
    rw [valid_iff]
    have := monthLen_ge y 12
    omega
  have h1 : addDays 31 ⟨y, 12, 1⟩ = ⟨y + 1, 1, 1⟩ := by
    have h31 : monthLen y 12 = 31 := rfl
    rw [show (31 : Nat) = 30 + 1 by rfl, addDays_succ']
    rw [addDays_in_month _ hv (by rw [h31])]
    rw [show (1 + 30 : Nat) = monthLen y 12 from rfl]
    rw [nextDay_monthEnd y 12]
    rfl
  unfold fMonth
  rw [← h1, pyWeekday_addDays _ hv]

theorem monthLen_eq_L (y m : Nat) : monthLen y m = monthLenL (isLeap y) m := rfl

theorem fMonth_lt (y m : Nat) : fMonth y m < 7 := pyWeekday_lt _

theorem fMonth_off {y : Nat} (hy : 1 ≤ y) :
    ∀ k, k ≤ 11 → fMonth y (1 + k) = (fMonth y 1 + offM (isLeap y) (1 + k)) % 7 := by
  intro k
  induction k with
  | zero =>
    intro _
    show fMonth y 1 = (fMonth y 1 + offM (isLeap y) 1) % 7
    rw [show offM (isLeap y) 1 = 0 from rfl]
    rw [Nat.add_zero, Nat.mod_eq_of_lt (fMonth_lt y 1)]
  | succ j ih =>
    intro hj
    have h1 : 1 + (j + 1) = (1 + j) + 1 := by omega
    rw [h1, fMonth_succ hy (by omega) (by omega), ih (by omega)]
    have h2 : offM (isLeap y) (1 + j + 1) = offM (isLeap y) (1 + j) + monthLenL (isLeap y) (1 + j) := by
      rw [show 1 + j + 1 = (j + 1) + 1 by omega]
      show offM (isLeap y) (j + 1 + 1) = _
      rw [show (1 : Nat) + j = j + 1 by omega]
      rfl
    rw [h2, monthLen_eq_L]
    omega

theorem fMonth_off' {y m : Nat} (hy : 1 ≤ y) (hm1 : 1 ≤ m) (hm : m ≤ 12) :
    fMonth y m = (fMonth y 1 + offM (isLeap y) m) % 7 := by
  have h : m = 1 + (m - 1) := by omega
  rw [h]
  exact fMonth_off hy (m - 1) (by omega)

theorem findRes_spec (L : Bool) (w1 r : Nat) (hw : w1 < 7) (hr : r < 7) :
    1 ≤ findRes L w1 r ∧ findRes L w1 r ≤ 12 ∧
      (w1 + offM L (findRes L w1 r)) % 7 = r := by
  cases L <;> interval_cases w1 <;> interval_cases r <;> decide

theorem findGood5_spec (L : Bool) (w1 W : Nat) (hw : w1 < 7) (hW : W < 7) :
    1 ≤ findGood5 L w1 W ∧ findGood5 L w1 W ≤ 12 ∧
      goodM W ((w1 + offM L (findGood5 L w1 W)) % 7) (monthLenL L (findGood5 L w1 W)) = true := by
  cases L <;> interval_cases w1 <;> interval_cases W <;> decide

theorem get_week_number_fM (x : Date) :
    get_week_number x = (x.d + fMonth x.y x.m + 6) / 7 := rfl

theorem get_week_number_pos {x : Date} (hd : 1 ≤ x.d) : 1 ≤ get_week_number x := by
  rw [get_week_number_fM]
  omega

theorem get_week_number_le6 {x : Date} (hv : x.Valid) : get_week_number x ≤ 6 := by
  obtain ⟨y, m, d⟩ := x
  rw [valid_iff] at hv
  rw [get_week_number_fM]
  have h1 := fMonth_lt y m
  have h2 := monthLen_le y m
  dsimp only at *
  omega


theorem weekLoop_mono {tgt : Int} :
    ∀ {f f' : Nat}, f ≤ f' → ∀ {t r : DateTime}, weekLoop tgt f t = some r →
      weekLoop tgt f' t = some r := by
  intro f
  induction f with
  | zero => intro f' _ t r h; simp [weekLoop] at h
  | succ j ih =>
    intro f' hle t r h
    obtain ⟨f'', rfl⟩ : ∃ f'', f' = f'' + 1 := ⟨f' - 1, by omega⟩
    rw [weekLoop] at h ⊢
    split at h
    · rename_i hc
      rw [if_pos hc]
      exact h
    · rename_i hc
      split at h
      · rename_i hc2
        rw [if_neg hc, if_pos hc2]
        exact ih (by omega) h
      · rename_i hc2
        rw [if_neg hc, if_neg hc2]
        exact ih (by omega) h

theorem alignDayLoop_mono {name : Option String} :
    ∀ {f f' : Nat}, f ≤ f' → ∀ {t r : DateTime}, alignDayLoop name f t = some r →
      alignDayLoop name f' t = some r := by
  intro f
  induction f with
  | zero => intro f' _ t r h; simp [alignDayLoop] at h
  | succ j ih =>
    intro f' hle t r h
    obtain ⟨f'', rfl⟩ : ∃ f'', f' = f'' + 1 := ⟨f' - 1, by omega⟩
    rw [alignDayLoop] at h ⊢
    split at h
    · rename_i hc
      rw [if_pos hc]
      exact h
    · rename_i hc
      rw [if_neg hc]
      exact ih (by omega) h

/-- Targets 2, 3, 4: within the current month the week number moves one step
toward the target each iteration, so at most 5 loop iterations suffice. -/
theorem weekLoop_term_234 :
    ∀ (k : Nat) {t : DateTime} {tg : Nat}, t.date.Valid →
      2 ≤ tg → tg ≤ 4 →
      get_week_number t.date ≤ tg + k → tg ≤ get_week_number t.date + k →
      (weekLoop (tg : Int) (k + 1) t).isSome := by
  intro k
  induction k with
  | zero =>
    intro t tg hv h2 h4 hub hlb
    have heq : get_week_number t.date = tg := by omega
    rw [weekLoop, if_pos (by rw [heq])]
    rfl
  | succ j ih =>
    intro t tg hv h2 h4 hub hlb
    by_cases heq : get_week_number t.date = tg
    · rw [weekLoop, if_pos (by rw [heq])]
      rfl
    · obtain ⟨⟨y, m, d⟩, mins⟩ := t
      dsimp only at hv hub hlb heq
      have hv' := hv
      rw [valid_iff] at hv'
      have hfm := fMonth_lt y m
      have hwn : get_week_number ⟨y, m, d⟩ = (d + fMonth y m + 6) / 7 :=
        get_week_number_fM _
      have h28 := monthLen_ge y m
      rcases Nat.lt_or_ge (get_week_number ⟨y, m, d⟩) tg with hlt | hge
      · -- step forward one week, staying in the month
        have hd7 : d + 7 ≤ monthLen y m := by omega
        rw [weekLoop, if_neg (by dsimp only; omega), if_pos (by dsimp only; omega)]
        have hstep : addDays 7 (⟨y, m, d⟩ : Date) = ⟨y, m, d + 7⟩ :=
          addDays_in_month 7 (by rw [valid_iff]; omega) hd7
        show (weekLoop (tg : Int) (j + 1) ⟨addDays 7 ⟨y, m, d⟩, mins⟩).isSome
        rw [hstep]
        apply @ih ⟨⟨y, m, d + 7⟩, mins⟩ tg (by rw [valid_iff]; omega) h2 h4
        · show get_week_number ⟨y, m, d + 7⟩ ≤ tg + j
          rw [get_week_number_fM]
          dsimp only
          omega
        · show tg ≤ get_week_number ⟨y, m, d + 7⟩ + j
          rw [get_week_number_fM]
          dsimp only
          omega
      · -- step backward one week, staying in the month
        have hgt : tg < get_week_number ⟨y, m, d⟩ := by omega
        have hd9 : 9 ≤ d := by omega
        rw [weekLoop, if_neg (by dsimp only; omega), if_neg (by dsimp only; omega)]
        have hstep : subDays 7 (⟨y, m, d⟩ : Date) = ⟨y, m, d - 7⟩ :=
          subDays_in_month 7 (by omega)
        show (weekLoop (tg : Int) (j + 1) ⟨subDays 7 ⟨y, m, d⟩, mins⟩).isSome
        rw [hstep]
        apply @ih ⟨⟨y, m, d - 7⟩, mins⟩ tg (by rw [valid_iff]; omega) h2 h4
        · show get_week_number ⟨y, m, d - 7⟩ ≤ tg + j
          rw [get_week_number_fM]
          dsimp only
          omega
        · show tg ≤ get_week_number ⟨y, m, d - 7⟩ + j
          rw [get_week_number_fM]
          dsimp only
          omega

theorem goodM_iff (W f len : Nat) : goodM W f len = true ↔
    29 ≤ ((W + 7 - f) % 7 + 1) + f + 7 * ((len - ((W + 7 - f) % 7 + 1)) / 7) := by
  simp [goodM]

theorem get_week_number_mk (y m d : Nat) :
    get_week_number ⟨y, m, d⟩ = (d + fMonth y m + 6) / 7 := rfl

/-- In a month where weekday `W` reaches week 5, a position below week 5 can
step forward one week and stay inside the month. -/
theorem good_step_fwd {y m d : Nat} (hv : (Date.mk y m d).Valid)
    (hgood : goodM (pyWeekday ⟨y, m, d⟩) (fMonth y m) (monthLen y m) = true)
    (hwn : get_week_number ⟨y, m, d⟩ < 5) : d + 7 ≤ monthLen y m := by
  have hv' := hv
  rw [valid_iff] at hv'
  rw [goodM_iff] at hgood
  rw [pyWeekday_inMonth y m d (by omega)] at hgood
  rw [get_week_number_mk] at hwn
  have hf := fMonth_lt y m
  have h28 := monthLen_ge y m
  have h31 := monthLen_le y m
  omega

/-- In a month where weekday `W` does not reach week 5, every aligned
position is below week 5. -/
theorem notgood_wn_lt5 {y m d : Nat} (hv : (Date.mk y m d).Valid)
    (hgood : goodM (pyWeekday ⟨y, m, d⟩) (fMonth y m) (monthLen y m) = false)
    : get_week_number ⟨y, m, d⟩ < 5 := by
  have hv' := hv
  rw [valid_iff] at hv'
  have hgood' : ¬ (goodM (pyWeekday ⟨y, m, d⟩) (fMonth y m) (monthLen y m) = true) := by
    rw [hgood]; simp
  rw [goodM_iff] at hgood'
  rw [pyWeekday_inMonth y m d (by omega)] at hgood'
  rw [get_week_number_mk]
  have hf := fMonth_lt y m
  have h28 := monthLen_ge y m
  have h31 := monthLen_le y m
  omega

/-- Target 5, good month: at most 5 more iterations reach week 5. -/
theorem weekLoop_term_5good :
    ∀ (k : Nat) {t : DateTime}, t.date.Valid →
      goodM (pyWeekday t.date) (fMonth t.date.y t.date.m) (monthLen t.date.y t.date.m) = true →
      get_week_number t.date ≤ 5 → 5 ≤ get_week_number t.date + k →
      (weekLoop (5 : Int) (k + 1) t).isSome := by
  intro k
  induction k with
  | zero =>
    intro t hv hgood hub hlb
    have heq : get_week_number t.date = 5 := by omega
    rw [weekLoop, if_pos (by omega)]
    rfl
  | succ j ih =>
    intro t hv hgood hub hlb
    by_cases heq : get_week_number t.date = 5
    · rw [weekLoop, if_pos (by omega)]
      rfl
    · obtain ⟨⟨y, m, d⟩, mins⟩ := t
      dsimp only at hv hgood hub hlb heq
      have hv' := hv
      rw [valid_iff] at hv'
      have hwn5 : get_week_number ⟨y, m, d⟩ < 5 := by omega
      have hd7 : d + 7 ≤ monthLen y m := good_step_fwd hv hgood hwn5
      have hwnf := get_week_number_mk y m d
      have hfm := fMonth_lt y m
      rw [weekLoop, if_neg (by dsimp only; omega), if_pos (by dsimp only; omega)]
      have hstep : addDays 7 (⟨y, m, d⟩ : Date) = ⟨y, m, d + 7⟩ :=
        addDays_in_month 7 hv hd7
      show (weekLoop (5 : Int) (j + 1) ⟨addDays 7 ⟨y, m, d⟩, mins⟩).isSome
      rw [hstep]
      have hW : pyWeekday (⟨y, m, d + 7⟩ : Date) = pyWeekday ⟨y, m, d⟩ := by
        rw [pyWeekday_inMonth y m (d + 7) (by omega), pyWeekday_inMonth y m d (by omega)]
        omega
      apply @ih ⟨⟨y, m, d + 7⟩, mins⟩ (by rw [valid_iff]; omega)
      · show goodM (pyWeekday ⟨y, m, d + 7⟩) (fMonth y m) (monthLen y m) = true
        rw [hW]
        exact hgood
      · show get_week_number ⟨y, m, d + 7⟩ ≤ 5
        rw [get_week_number_mk]
        omega
      · show 5 ≤ get_week_number ⟨y, m, d + 7⟩ + j
        rw [get_week_number_mk]
        omega

/-- Target 5, month without a week-5 occurrence of the current weekday: the
loop walks forward out of the month, reaching the first aligned day of the
next month. -/
theorem weekLoop_cross_fwd :
    ∀ (k : Nat) {t : DateTime}, t.date.Valid →
      goodM (pyWeekday t.date) (fMonth t.date.y t.date.m) (monthLen t.date.y t.date.m) = false →
      monthLen t.date.y t.date.m ≤ t.date.d + k →
      ∃ (n : Nat) (t' : DateTime),
        (∀ fuel, weekLoop (5 : Int) (n + fuel) t = weekLoop (5 : Int) fuel t') ∧
        t'.date.Valid ∧ pyWeekday t'.date = pyWeekday t.date ∧
        (t'.date.y, t'.date.m) = nextMonthP (t.date.y, t.date.m) ∧
        t'.date.d ≤ 7 ∧ t'.mins = t.mins := by
  intro k
  induction k with
  | zero =>
    intro t hv hgood hk
    obtain ⟨⟨y, m, d⟩, mins⟩ := t
    dsimp only at hv hgood hk ⊢
    have hv' := hv
    rw [valid_iff] at hv'
    have hwn5 : get_week_number ⟨y, m, d⟩ < 5 := notgood_wn_lt5 hv hgood
    have hwnf := get_week_number_mk y m d
    have hcross := addDays7_cross hv (show monthLen y m < d + 7 by omega)
    have hvd := valid_addDays 7 hv
    rw [hcross] at hvd
    have hwd := pyWeekday_fwd7 hv
    rw [hcross] at hwd
    refine ⟨1, ⟨⟨(nextMonthP (y, m)).1, (nextMonthP (y, m)).2, d + 7 - monthLen y m⟩, mins⟩,
      ?_, hvd, hwd, rfl, by dsimp only; omega, rfl⟩
    intro fuel
    rw [show 1 + fuel = fuel + 1 by omega]
    rw [weekLoop, if_neg (by dsimp only; omega), if_pos (by dsimp only; omega)]
    show weekLoop (5 : Int) fuel ⟨addDays 7 ⟨y, m, d⟩, mins⟩ = _
    rw [hcross]
  | succ j ih =>
    intro t hv hgood hk
    obtain ⟨⟨y, m, d⟩, mins⟩ := t
    dsimp only at hv hgood hk ⊢
    have hv' := hv
    rw [valid_iff] at hv'
    have hwn5 : get_week_number ⟨y, m, d⟩ < 5 := notgood_wn_lt5 hv hgood
    have hwnf := get_week_number_mk y m d
    by_cases hin : d + 7 ≤ monthLen y m
    · -- step inside the month, then recurse
      have hW : pyWeekday (⟨y, m, d + 7⟩ : Date) = pyWeekday ⟨y, m, d⟩ := by
        rw [pyWeekday_inMonth y m (d + 7) (by omega), pyWeekday_inMonth y m d (by omega)]
        omega
      have hv2 : (Date.mk y m (d + 7)).Valid := by rw [valid_iff]; omega
      obtain ⟨n, t', hred, hvt, hWt, hMt, hDt, hmins⟩ :=
        @ih ⟨⟨y, m, d + 7⟩, mins⟩ hv2
          (by show goodM (pyWeekday ⟨y, m, d + 7⟩) _ _ = false; rw [hW]; exact hgood)
          (by dsimp only; omega)
      refine ⟨n + 1, t', ?_, hvt, by rw [hWt]; show _ = pyWeekday ⟨y, m, d⟩; rw [hW],
        hMt, hDt, hmins⟩
      intro fuel
      rw [show n + 1 + fuel = (n + fuel) + 1 by omega]
      rw [weekLoop, if_neg (by dsimp only; omega), if_pos (by dsimp only; omega)]
      show weekLoop (5 : Int) (n + fuel) ⟨addDays 7 ⟨y, m, d⟩, mins⟩ = _
      rw [addDays_in_month 7 hv hin]
      exact hred fuel
    · -- cross into the next month now
      have hcross := addDays7_cross hv (show monthLen y m < d + 7 by omega)
      have hvd := valid_addDays 7 hv
      rw [hcross] at hvd
      have hwd := pyWeekday_fwd7 hv
      rw [hcross] at hwd
      refine ⟨1, ⟨⟨(nextMonthP (y, m)).1, (nextMonthP (y, m)).2, d + 7 - monthLen y m⟩, mins⟩,
        ?_, hvd, hwd, rfl, by dsimp only; omega, rfl⟩
      intro fuel
      rw [show 1 + fuel = fuel + 1 by omega]
      rw [weekLoop, if_neg (by dsimp only; omega), if_pos (by dsimp only; omega)]
      show weekLoop (5 : Int) fuel ⟨addDays 7 ⟨y, m, d⟩, mins⟩ = _
      rw [hcross]


theorem nextMonthP_iter_inYear :
    ∀ (j y m : Nat), 1 ≤ m → m + j ≤ 12 → Nat.iterate nextMonthP j (y, m) = (y, m + j) := by
  intro j
  induction j with
  | zero => intro y m _ _; rfl
  | succ i ih =>
    intro y m hm1 hm
    rw [Function.iterate_succ_apply]
    have hstep : nextMonthP (y, m) = (y, m + 1) := by
      unfold nextMonthP
      rw [if_pos (by dsimp only; omega)]
    rw [hstep, ih y (m + 1) (by omega) (by omega)]
    rw [Prod.mk.injEq]
    exact ⟨rfl, by omega⟩

theorem nextMonthP_dec (y : Nat) : nextMonthP (y, 12) = (y + 1, 1) := by
  unfold nextMonthP
  rw [if_neg (by dsimp only; omega)]

/-- Going forward, a month in which the current weekday reaches week 5 is at
most 24 months away. -/
theorem existsGoodAhead (y m W : Nat) (hy : 1 ≤ y) (hm1 : 1 ≤ m) (hm : m ≤ 12)
    (hW : W < 7) :
    ∃ K, K ≤ 24 ∧ goodAt (Nat.iterate nextMonthP K (y, m)) W = true := by
  set L := isLeap (y + 1) with hL
  set w1 := fMonth (y + 1) 1 with hw1
  set ms := findGood5 L w1 W with hms
  have hw1lt : w1 < 7 := fMonth_lt (y + 1) 1
  obtain ⟨hms1, hms12, hmsgood⟩ := findGood5_spec L w1 W hw1lt hW
  refine ⟨(ms - 1) + (1 + (12 - m)), by omega, ?_⟩
  have h1 : Nat.iterate nextMonthP (12 - m) (y, m) = (y, 12) := by
    have := nextMonthP_iter_inYear (12 - m) y m hm1 (by omega)
    rw [this]
    rw [Prod.mk.injEq]
    exact ⟨rfl, by omega⟩
  have h2 : Nat.iterate nextMonthP (1 + (12 - m)) (y, m) = (y + 1, 1) := by
    rw [Function.iterate_add_apply, h1, Function.iterate_one, nextMonthP_dec]
  have h3 : Nat.iterate nextMonthP ((ms - 1) + (1 + (12 - m))) (y, m) = (y + 1, ms) := by
    rw [Function.iterate_add_apply, h2]
    have := nextMonthP_iter_inYear (ms - 1) (y + 1) 1 (by omega) (by omega)
    rw [this]
    rw [Prod.mk.injEq]
    exact ⟨rfl, by omega⟩
  rw [h3]
  unfold goodAt
  dsimp only
  rw [fMonth_off' (by omega) (by omega) (by omega)]
  rw [show isLeap (y + 1) = L from rfl]
  rw [show fMonth (y + 1) 1 = w1 from rfl]
  rw [show monthLen (y + 1) ms = monthLenL L ms by rw [monthLen_eq_L]]
  exact hmsgood

/-- Target 5, master induction over the months until a good month. -/
theorem weekLoop_term_5months :
    ∀ (K : Nat) {t : DateTime}, t.date.Valid →
      get_week_number t.date ≤ 5 →
      goodAt (Nat.iterate nextMonthP K (t.date.y, t.date.m)) (pyWeekday t.date) = true →
      ∃ fuel, (weekLoop (5 : Int) fuel t).isSome := by
  intro K
  induction K with
  | zero =>
    intro t hv hwn hgood
    refine ⟨5 + 1, weekLoop_term_5good 5 hv ?_ hwn (by omega)⟩
    exact hgood
  | succ K' ih =>
    intro t hv hwn hgood
    by_cases hg : goodM (pyWeekday t.date) (fMonth t.date.y t.date.m) (monthLen t.date.y t.date.m) = true
    · exact ⟨5 + 1, weekLoop_term_5good 5 hv hg hwn (by omega)⟩
    · obtain ⟨n, t', hred, hvt, hWt, hMt, hDt, hmins⟩ :=
        weekLoop_cross_fwd (monthLen t.date.y t.date.m) hv
          (by rw [Bool.eq_false_iff]; exact hg) (by omega)
      have hgood' : goodAt (Nat.iterate nextMonthP K' (t'.date.y, t'.date.m)) (pyWeekday t'.date) = true := by
        rw [hWt, hMt]
        rw [← Function.iterate_succ_apply nextMonthP K' (t.date.y, t.date.m)]
        exact hgood
      have hwn' : get_week_number t'.date ≤ 5 := by
        obtain ⟨⟨y', m', d'⟩, mins'⟩ := t'
        dsimp only at hDt ⊢
        rw [get_week_number_mk]
        have := fMonth_lt y' m'
        omega
      obtain ⟨fuel, hfuel⟩ := ih hvt hwn' hgood'
      refine ⟨n + fuel, ?_⟩
      rw [hred fuel]
      exact hfuel

/-- Target 5 terminates from any valid position. -/
theorem weekLoop_term_tgt5 {t : DateTime} (hv : t.date.Valid) :
    ∃ fuel, (weekLoop (5 : Int) fuel t).isSome := by
  rcases Nat.lt_or_ge (get_week_number t.date) 6 with h6 | h6
  · -- week number at most 5: run the month machine
    obtain ⟨⟨y, m, d⟩, mins⟩ := t
    dsimp only at hv h6 ⊢
    have hv' := hv
    rw [valid_iff] at hv'
    obtain ⟨K, _, hgood⟩ := existsGoodAhead y m (pyWeekday ⟨y, m, d⟩) (by omega) (by omega)
      (by omega) (pyWeekday_lt _)
    exact weekLoop_term_5months K hv (by dsimp only; omega) hgood
  · -- week number 6: one step back lands on week 5
    obtain ⟨⟨y, m, d⟩, mins⟩ := t
    dsimp only at hv h6 ⊢
    have hv' := hv
    rw [valid_iff] at hv'
    have hwnf := get_week_number_mk y m d
    have h31 := monthLen_le y m
    have hfm := fMonth_lt y m
    have hd30 : 30 ≤ d := by omega
    refine ⟨2, ?_⟩
    rw [weekLoop, if_neg (by dsimp only; omega), if_neg (by dsimp only; omega)]
    show (weekLoop (5 : Int) 1 ⟨subDays 7 ⟨y, m, d⟩, mins⟩).isSome
    rw [subDays_in_month 7 (by omega)]
    rw [weekLoop, if_pos ?_]
    · rfl
    · show ((get_week_number ⟨y, m, d - 7⟩ : Nat) : Int) = 5
      rw [get_week_number_mk]
      omega

/-- In a month whose first day's weekday is at most `W`, an aligned position
with week number at least 2 sits beyond day 7. -/
theorem good1_step_back {y m d : Nat} (hv : (Date.mk y m d).Valid)
    (hgood : fMonth y m ≤ pyWeekday ⟨y, m, d⟩)
    (hwn : 2 ≤ get_week_number ⟨y, m, d⟩) : 8 ≤ d := by
  have hv' := hv
  rw [valid_iff] at hv'
  rw [pyWeekday_inMonth y m d (by omega)] at hgood
  rw [get_week_number_mk] at hwn
  have hf := fMonth_lt y m
  omega

/-- In a month whose first day's weekday exceeds `W`, every aligned position
has week number at least 2. -/
theorem notgood1_wn_ge2 {y m d : Nat} (hv : (Date.mk y m d).Valid)
    (hgood : pyWeekday ⟨y, m, d⟩ < fMonth y m) :
    2 ≤ get_week_number ⟨y, m, d⟩ := by
  have hv' := hv
  rw [valid_iff] at hv'
  rw [pyWeekday_inMonth y m d (by omega)] at hgood
  rw [get_week_number_mk]
  have hf := fMonth_lt y m
  omega

/-- Target 1, good month: stepping back a week at a time reaches week 1. -/
theorem weekLoop_term_1good :
    ∀ (k : Nat) {t : DateTime}, t.date.Valid →
      fMonth t.date.y t.date.m ≤ pyWeekday t.date →
      get_week_number t.date ≤ 1 + k →
      (weekLoop (1 : Int) (k + 1) t).isSome := by
  intro k
  induction k with
  | zero =>
    intro t hv hgood hub
    have h1 : 1 ≤ get_week_number t.date := get_week_number_pos (by
      obtain ⟨⟨y, m, d⟩, mins⟩ := t
      have hv' := hv
      rw [valid_iff] at hv'
      exact hv'.2.2.2.1)
    rw [weekLoop, if_pos (by omega)]
    rfl
  | succ j ih =>
    intro t hv hgood hub
    by_cases heq : get_week_number t.date = 1
    · rw [weekLoop, if_pos (by omega)]
      rfl
    · obtain ⟨⟨y, m, d⟩, mins⟩ := t
      dsimp only at hv hgood hub heq
      have hv' := hv
      rw [valid_iff] at hv'
      have hwn2 : 2 ≤ get_week_number ⟨y, m, d⟩ := by
        have := @get_week_number_pos ⟨y, m, d⟩ (by dsimp only; omega)
        omega
      have hd8 : 8 ≤ d := good1_step_back hv hgood hwn2
      have hwnf := get_week_number_mk y m d
      have hfm := fMonth_lt y m
      rw [weekLoop, if_neg (by dsimp only; omega), if_neg (by dsimp only; omega)]
      show (weekLoop (1 : Int) (j + 1) ⟨subDays 7 ⟨y, m, d⟩, mins⟩).isSome
      rw [subDays_in_month 7 (by omega)]
      have hW : pyWeekday (⟨y, m, d - 7⟩ : Date) = pyWeekday ⟨y, m, d⟩ := by
        rw [pyWeekday_inMonth y m (d - 7) (by omega), pyWeekday_inMonth y m d (by omega)]
        omega
      apply @ih ⟨⟨y, m, d - 7⟩, mins⟩ (by rw [valid_iff]; omega)
      · show fMonth y m ≤ pyWeekday ⟨y, m, d - 7⟩
        rw [hW]
        exact hgood
      · show get_week_number ⟨y, m, d - 7⟩ ≤ 1 + j
        rw [get_week_number_mk]
        omega

/-- Target 1, month whose first day's weekday exceeds the current weekday:
the loop walks backward out of the month into the preceding one. -/
theorem weekLoop_cross_back :
    ∀ (k : Nat) {t : DateTime}, t.date.Valid →
      pyWeekday t.date < fMonth t.date.y t.date.m →
      (2 ≤ t.date.y ∨ 2 ≤ t.date.m) →
      t.date.d ≤ k →
      ∃ (n : Nat) (t' : DateTime),
        (∀ fuel, weekLoop (1 : Int) (n + fuel) t = weekLoop (1 : Int) fuel t') ∧
        t'.date.Valid ∧ pyWeekday t'.date = pyWeekday t.date ∧
        (t'.date.y, t'.date.m) = prevMonthP (t.date.y, t.date.m) ∧
        t'.mins = t.mins := by
  intro k
  induction k with
  | zero =>
    intro t hv _ _ hk
    obtain ⟨⟨y, m, d⟩, mins⟩ := t
    dsimp only at hk
    have hv' := hv
    rw [valid_iff] at hv'
    omega
  | succ j ih =>
    intro t hv hgood hy2 hk
    obtain ⟨⟨y, m, d⟩, mins⟩ := t
    dsimp only at hv hgood hy2 hk ⊢
    have hv' := hv
    rw [valid_iff] at hv'
    have hwn2 : 2 ≤ get_week_number ⟨y, m, d⟩ := notgood1_wn_ge2 hv hgood
    have hwn6 : get_week_number ⟨y, m, d⟩ ≤ 6 := get_week_number_le6 hv
    have hwnf := get_week_number_mk y m d
    by_cases hin : 7 < d
    · -- step inside the month, then recurse
      have hW : pyWeekday (⟨y, m, d - 7⟩ : Date) = pyWeekday ⟨y, m, d⟩ := by
        rw [pyWeekday_inMonth y m (d - 7) (by omega), pyWeekday_inMonth y m d (by omega)]
        omega
      have hv2 : (Date.mk y m (d - 7)).Valid := by rw [valid_iff]; omega
      obtain ⟨n, t', hred, hvt, hWt, hMt, hmins⟩ :=
        @ih ⟨⟨y, m, d - 7⟩, mins⟩ hv2
          (by show pyWeekday ⟨y, m, d - 7⟩ < fMonth y m; rw [hW]; exact hgood)
          (by dsimp only; omega) (by dsimp only; omega)
      refine ⟨n + 1, t', ?_, hvt, by rw [hWt]; show _ = pyWeekday ⟨y, m, d⟩; rw [hW],
        hMt, hmins⟩
      intro fuel
      rw [show n + 1 + fuel = (n + fuel) + 1 by omega]
      rw [weekLoop, if_neg (by dsimp only; omega), if_neg (by dsimp only; omega)]
      show weekLoop (1 : Int) (n + fuel) ⟨subDays 7 ⟨y, m, d⟩, mins⟩ = _
      rw [subDays_in_month 7 (by omega)]
      exact hred fuel
    · -- cross into the previous month now
      have hcross := @subDays7_cross y m d (by omega) (by omega)
      have hvd := valid_subDays7 hv hy2
      rw [hcross] at hvd
      have hwd := pyWeekday_back7 hv hy2
      rw [hcross] at hwd
      refine ⟨1, ⟨⟨(prevMonthP (y, m)).1, (prevMonthP (y, m)).2,
        monthLen (prevMonthP (y, m)).1 (prevMonthP (y, m)).2 - (7 - d)⟩, mins⟩,
        ?_, hvd, hwd, rfl, rfl⟩
      intro fuel
      rw [show 1 + fuel = fuel + 1 by omega]
      rw [weekLoop, if_neg (by dsimp only; omega), if_neg (by dsimp only; omega)]
      show weekLoop (1 : Int) fuel ⟨subDays 7 ⟨y, m, d⟩, mins⟩ = _
      rw [hcross]


theorem prevMonthP_iter_inYear :
    ∀ (j y m : Nat), j < m → Nat.iterate prevMonthP j (y, m) = (y, m - j) := by
  intro j
  induction j with
  | zero => intro y m _; simp
  | succ i ih =>
    intro y m hm
    rw [Function.iterate_succ_apply]
    have hstep : prevMonthP (y, m) = (y, m - 1) := by
      unfold prevMonthP
      rw [if_pos (by dsimp only; omega)]
    rw [hstep, ih y (m - 1) (by omega)]
    rw [Prod.mk.injEq]
    exact ⟨rfl, by omega⟩

theorem prevMonthP_jan (y : Nat) : prevMonthP (y, 1) = (y - 1, 12) := by
  unfold prevMonthP
  rw [if_neg (by dsimp only; omega)]

theorem mIdx_prevMonthP {p : Nat × Nat} (h1 : 1 ≤ p.2) (h12 : p.2 ≤ 12) (hi : 1 ≤ mIdx p) :
    mIdx (prevMonthP p) = mIdx p - 1 := by
  obtain ⟨y, m⟩ := p
  dsimp only at h1 h12 hi
  rw [show mIdx (y, m) = 12 * y + m - 1 from rfl] at hi
  unfold prevMonthP mIdx
  by_cases h : 1 < m
  · rw [if_pos (by dsimp only; omega)]
    dsimp only
    omega
  · rw [if_neg (by dsimp only; omega)]
    dsimp only
    omega

theorem prevMonthP_bounds {p : Nat × Nat} (h1 : 1 ≤ p.2) (h12 : p.2 ≤ 12) :
    1 ≤ (prevMonthP p).2 ∧ (prevMonthP p).2 ≤ 12 := by
  obtain ⟨y, m⟩ := p
  unfold prevMonthP
  by_cases h : 1 < m
  · rw [if_pos (by dsimp only; omega)]
    dsimp only at *
    omega
  · rw [if_neg (by dsimp only; omega)]
    dsimp only at *
    omega

/-- Going backward, a month starting on Monday (weekday 0) — hence a "week 1
reachable" month for every weekday — is at most 24 months back. -/
theorem existsGood1Behind (y m W : Nat) (hy : 3 ≤ y) (hm1 : 1 ≤ m) (hm : m ≤ 12)
    (hW : W < 7) :
    ∃ K, K ≤ 24 ∧ good1At (Nat.iterate prevMonthP K (y, m)) W = true ∧
      K + 12 ≤ mIdx (y, m) := by
  set L := isLeap (y - 1) with hL
  set w1 := fMonth (y - 1) 1 with hw1
  set ms := findRes L w1 0 with hms
  have hw1lt : w1 < 7 := fMonth_lt (y - 1) 1
  obtain ⟨hms1, hms12, hmsr⟩ := findRes_spec L w1 0 hw1lt (by omega)
  refine ⟨(12 - ms) + (1 + (m - 1)), ?_, ?_, ?_⟩
  · omega
  · have h1 : Nat.iterate prevMonthP (m - 1) (y, m) = (y, 1) := by
      have := prevMonthP_iter_inYear (m - 1) y m (by omega)
      rw [this]
      rw [Prod.mk.injEq]
      exact ⟨rfl, by omega⟩
    have h2 : Nat.iterate prevMonthP (1 + (m - 1)) (y, m) = (y - 1, 12) := by
      rw [Function.iterate_add_apply, h1, Function.iterate_one, prevMonthP_jan]
    have h3 : Nat.iterate prevMonthP ((12 - ms) + (1 + (m - 1))) (y, m) = (y - 1, ms) := by
      rw [Function.iterate_add_apply, h2]
      have := prevMonthP_iter_inYear (12 - ms) (y - 1) 12 (by omega)
      rw [this]
      rw [Prod.mk.injEq]
      exact ⟨rfl, by omega⟩
    rw [h3]
    unfold good1At
    dsimp only
    rw [fMonth_off' (by omega) (by omega) (by omega)]
    rw [show isLeap (y - 1) = L from rfl, show fMonth (y - 1) 1 = w1 from rfl]
    rw [hmsr]
    simp
  · have hmi : mIdx (y, m) = 12 * y + m - 1 := rfl
    rw [hmi]
    omega

/-- Target 1, master induction over the months back to a good month. -/
theorem weekLoop_term_1months :
    ∀ (K : Nat) {t : DateTime}, t.date.Valid →
      good1At (Nat.iterate prevMonthP K (t.date.y, t.date.m)) (pyWeekday t.date) = true →
      K + 12 ≤ mIdx (t.date.y, t.date.m) →
      ∃ fuel, (weekLoop (1 : Int) fuel t).isSome := by
  intro K
  induction K with
  | zero =>
    intro t hv hgood hidx
    have hg : fMonth t.date.y t.date.m ≤ pyWeekday t.date := by
      have := hgood
      unfold good1At at this
      simpa using this
    exact ⟨5 + 1, weekLoop_term_1good 5 hv hg (by have := get_week_number_le6 hv; omega)⟩
  | succ K' ih =>
    intro t hv hgood hidx
    by_cases hg : fMonth t.date.y t.date.m ≤ pyWeekday t.date
    · exact ⟨5 + 1, weekLoop_term_1good 5 hv hg (by have := get_week_number_le6 hv; omega)⟩
    · have hv' := hv
      obtain ⟨⟨y, m, d⟩, mins⟩ := t
      dsimp only at hg hgood hidx ⊢
      rw [valid_iff] at hv'
      have hmidx : 12 * y + m - 1 = mIdx (y, m) := rfl
      obtain ⟨n, t', hred, hvt, hWt, hMt, hmins⟩ :=
        @weekLoop_cross_back d ⟨⟨y, m, d⟩, mins⟩ hv (by dsimp only; omega)
          (by dsimp only; unfold mIdx at hidx; dsimp only at hidx; omega)
          (by dsimp only; omega)
      have hgood' : good1At (Nat.iterate prevMonthP K' (t'.date.y, t'.date.m)) (pyWeekday t'.date) = true := by
        rw [hWt, hMt]
        rw [← Function.iterate_succ_apply prevMonthP K' (y, m)]
        exact hgood
      have hidx' : K' + 12 ≤ mIdx (t'.date.y, t'.date.m) := by
        rw [hMt, mIdx_prevMonthP (by dsimp only; omega) (by dsimp only; omega)
          (by unfold mIdx; dsimp only; omega)]
        unfold mIdx at hidx ⊢
        dsimp only at hidx ⊢
        omega
      obtain ⟨fuel, hfuel⟩ := ih hvt hgood' hidx'
      refine ⟨n + fuel, ?_⟩
      rw [hred fuel]
      exact hfuel

/-- Target 1 terminates from any valid position in year 3 onward. -/
theorem weekLoop_term_tgt1 {t : DateTime} (hv : t.date.Valid) (hy3 : 3 ≤ t.date.y) :
    ∃ fuel, (weekLoop (1 : Int) fuel t).isSome := by
  obtain ⟨⟨y, m, d⟩, mins⟩ := t
  dsimp only at hv hy3 ⊢
  have hv' := hv
  rw [valid_iff] at hv'
  obtain ⟨K, hK24, hgood, hKidx⟩ := existsGood1Behind y m (pyWeekday ⟨y, m, d⟩)
    (by omega) (by omega) (by omega) (pyWeekday_lt _)
  exact weekLoop_term_1months K hv hgood hKidx

/-- Targets 2-4 terminate from any valid position. -/
theorem weekLoop_term_tgt234 {t : DateTime} {tg : Nat} (hv : t.date.Valid)
    (h2 : 2 ≤ tg) (h4 : tg ≤ 4) :
    ∃ fuel, (weekLoop (tg : Int) fuel t).isSome := by
  refine ⟨6 + 1, weekLoop_term_234 6 hv h2 h4 ?_ ?_⟩
  · have := get_week_number_le6 hv
    omega
  · have h1 : 1 ≤ get_week_number t.date := get_week_number_pos (by
      obtain ⟨⟨y, m, d⟩, mins⟩ := t
      have hv' := hv
      rw [valid_iff] at hv'
      exact hv'.2.2.2.1)
    omega

theorem lowerWeekdays_eq : get_weekdays.map lowerStr = lowerWeekdays := by decide

theorem lowerWeekdays_getD (i : Nat) (hi : i < 7) :
    lowerStr (get_weekdays.getD i "") = lowerWeekdays.getD i "" := by
  interval_cases i <;> decide

theorem lowerWeekdays_inj (i j : Nat) (hi : i < 7) (hj : j < 7)
    (h : lowerWeekdays.getD i "" = lowerWeekdays.getD j "") : i = j := by
  interval_cases i <;> interval_cases j <;> first | rfl | (exfalso; revert h; decide)

/-- The alignment loop succeeds if some day within the fuel bound has the
target weekday index. -/
theorem alignDayLoop_term :
    ∀ (fuel : Nat) {t : DateTime} {idx : Nat}, idx < 7 → t.date.Valid →
      (∃ k, k < fuel ∧ pyWeekday (addDays k t.date) = idx) →
      ∃ k, k < fuel ∧
        alignDayLoop (some (lowerWeekdays.getD idx "")) fuel t =
          some ⟨addDays k t.date, t.mins⟩ ∧
        pyWeekday (addDays k t.date) = idx := by
  intro fuel
  induction fuel with
  | zero =>
    intro t idx _ _ h
    obtain ⟨k, hk, _⟩ := h
    omega
  | succ f ih =>
    intro t idx hidx hv h
    by_cases hcur : pyWeekday t.date = idx
    · refine ⟨0, by omega, ?_, by rw [addDays_zero]; exact hcur⟩
      rw [alignDayLoop, if_pos ?_]
      · obtain ⟨d0, m0⟩ := t
        rfl
      · rw [lowerWeekdays_getD _ (pyWeekday_lt _), hcur]
    · obtain ⟨k, hkf, hk⟩ := h
      have hk0 : k ≠ 0 := by
        intro h0
        rw [h0, addDays_zero] at hk
        exact hcur hk
      have hstep : ∃ k', k' < f ∧ pyWeekday (addDays k' (addDays 1 t.date)) = idx := by
        refine ⟨k - 1, by omega, ?_⟩
        rw [← addDays_add]
        rw [show k - 1 + 1 = k by omega]
        exact hk
      obtain ⟨k', hk'f, hfind, hk'⟩ :=
        @ih ⟨addDays 1 t.date, t.mins⟩ idx hidx (valid_addDays 1 hv) hstep
      refine ⟨k' + 1, by omega, ?_, ?_⟩
      · rw [alignDayLoop, if_neg ?_]
        · rw [hfind]
          show _ = some ⟨addDays (k' + 1) t.date, t.mins⟩
          rw [show k' + 1 = k' + 1 by rfl]
          have : addDays (k' + 1) t.date = addDays k' (addDays 1 t.date) := by
            rw [← addDays_add]
          rw [this]
        · intro hcontra
          rw [lowerWeekdays_getD _ (pyWeekday_lt _)] at hcontra
          have := lowerWeekdays_inj _ _ (pyWeekday_lt _) hidx (Option.some.inj hcontra)
          exact hcur this
      · rw [addDays_add]
        exact hk'

/-- Some day within 7 steps has the target weekday. -/
theorem exists_weekday_within7 {x : Date} (hv : x.Valid) (idx : Nat) (hidx : idx < 7) :
    ∃ k, k < 7 ∧ pyWeekday (addDays k x) = idx := by
  refine ⟨(idx + 7 - pyWeekday x) % 7, by omega, ?_⟩
  rw [pyWeekday_addDays _ hv]
  have := pyWeekday_lt x
  omega


/-- The solver terminates for every valid lowercase weekday name and every
target that is negative (clamped to 4) or between 1 and 5. -/
theorem solver_terminates {now : DateTime} {wn : Int} {name : String}
    (hv : now.date.Valid) (hy3 : 3 ≤ now.date.y)
    (hname : name ∈ lowerWeekdays)
    (hwn : wn < 0 ∨ (1 ≤ wn ∧ wn ≤ 5)) :
    SolverTerminates now wn (some name) := by
  have hidx : ∃ idx, idx < 7 ∧ lowerWeekdays.getD idx "" = name := by
    simp only [lowerWeekdays, List.mem_cons, List.not_mem_nil, or_false] at hname
    rcases hname with h | h | h | h | h | h | h
    · exact ⟨0, by omega, h.symm⟩
    · exact ⟨1, by omega, h.symm⟩
    · exact ⟨2, by omega, h.symm⟩
    · exact ⟨3, by omega, h.symm⟩
    · exact ⟨4, by omega, h.symm⟩
    · exact ⟨5, by omega, h.symm⟩
    · exact ⟨6, by omega, h.symm⟩
  obtain ⟨idx, hidx7, hidxname⟩ := hidx
  obtain ⟨k, hk7, halign, hkw⟩ :=
    alignDayLoop_term 7 hidx7 hv (exists_weekday_within7 hv idx hidx7)
  rw [hidxname] at halign
  set t1 : DateTime := ⟨addDays k now.date, now.mins⟩ with ht1
  have hv1 : t1.date.Valid := valid_addDays k hv
  have hy1 : 3 ≤ t1.date.y := le_trans hy3 (y_le_addDays k now.date)
  have hterm : ∃ fuel, (weekLoop (if wn < 0 then 4 else wn) fuel t1).isSome := by
    rcases hwn with hneg | ⟨h1, h5⟩
    · rw [if_pos hneg]
      obtain ⟨fuel, hf⟩ := @weekLoop_term_tgt234 t1 4 hv1 (by omega) (by omega)
      exact ⟨fuel, by rw [show ((4 : Nat) : Int) = (4 : Int) by norm_num] at hf; exact hf⟩
    · rw [if_neg (by omega)]
      have h15 : wn = 1 ∨ (2 ≤ wn ∧ wn ≤ 4) ∨ wn = 5 := by omega
      rcases h15 with h | ⟨h2, h4⟩ | h
      · subst h
        obtain ⟨fuel, hf⟩ := weekLoop_term_tgt1 hv1 hy1
        exact ⟨fuel, hf⟩
      · obtain ⟨fuel, hf⟩ := @weekLoop_term_tgt234 t1 wn.toNat hv1 (by omega) (by omega)
        exact ⟨fuel, by rw [show ((wn.toNat : Nat) : Int) = wn by omega] at hf; exact hf⟩
      · subst h
        obtain ⟨fuel, hf⟩ := weekLoop_term_tgt5 hv1
        exact ⟨fuel, hf⟩
  obtain ⟨fuel2, hf2⟩ := hterm
  rw [Option.isSome_iff_exists] at hf2
  obtain ⟨r, hr⟩ := hf2
  refine ⟨7 + fuel2, ?_⟩
  unfold parse_google_calendar_recurrence_rule
  rw [alignDayLoop_mono (show (7 : Nat) ≤ 7 + fuel2 by omega) halign]
  show (weekLoop (if wn < 0 then 4 else wn) (7 + fuel2) t1).isSome = true
  rw [weekLoop_mono (show fuel2 ≤ 7 + fuel2 by omega) hr]
  rfl

/-- A week-number target of 0 can never be met: week numbers are at least 1. -/
theorem weekLoop_zero_none :
    ∀ (fuel : Nat) {t : DateTime}, 1 ≤ t.date.d → weekLoop (0 : Int) fuel t = none := by
  intro fuel
  induction fuel with
  | zero => intro t _; rfl
  | succ f ih =>
    intro t hd
    have h1 : 1 ≤ get_week_number t.date := get_week_number_pos hd
    have hstep : weekLoop (0 : Int) (f + 1) t =
        weekLoop (0 : Int) f ⟨subDays 7 t.date, t.mins⟩ := by
      rw [weekLoop]
      rw [if_neg (by omega)]
      rw [if_neg (by omega)]
    rw [hstep]
    have hd' : 1 ≤ (subDays 7 t.date).d := d_pos_subDays 7 hd
    generalize hq : subDays 7 t.date = q at hd' ⊢
    exact ih hd'

theorem alignDayLoop_d_pos {nm : Option String} :
    ∀ {fuel : Nat} {t t' : DateTime}, alignDayLoop nm fuel t = some t' →
      1 ≤ t.date.d → 1 ≤ t'.date.d := by
  intro fuel
  induction fuel with
  | zero => intro t t' h; simp [alignDayLoop] at h
  | succ f ih =>
    intro t t' h hd
    rw [alignDayLoop] at h
    split at h
    · cases h
      exact hd
    · exact ih h (d_pos_addDays 1 hd)

/-- With target week number 0 the solver runs forever (every fuel fails). -/
theorem solver_stuck_zero {now : DateTime} {name : Option String}
    (hd : 1 ≤ now.date.d) : ¬ SolverTerminates now 0 name := by
  rintro ⟨fuel, hf⟩
  unfold parse_google_calendar_recurrence_rule at hf
  rw [if_neg (by omega)] at hf
  cases halign : alignDayLoop name fuel now with
  | none => rw [halign] at hf; simp at hf
  | some t1 =>
    rw [halign] at hf
    have hd1 : 1 ≤ t1.date.d := alignDayLoop_d_pos halign hd
    rw [show Option.bind (some t1) (weekLoop (0 : Int) fuel) = weekLoop (0 : Int) fuel t1 from rfl] at hf
    rw [weekLoop_zero_none fuel hd1] at hf
    simp at hf

/-- `get_recurrence_parameters` keeps, for each key, the LAST token claimed by
that key, where a token containing `"FREQ"` is claimed by the frequency slot,
else one containing `"UNTIL"` by the until slot, else one containing
`"BYDAY"` by the byday slot. -/
theorem get_recurrence_parameters_last (recurrence : List String) :
    get_recurrence_parameters recurrence =
      ((recurrence.filter isFreqTok).getLast?,
       (recurrence.filter isUntilTok).getLast?,
       (recurrence.filter isBydayTok).getLast?) := by
  induction recurrence using List.reverseRecOn with
  | nil => rfl
  | append_singleton l r ih =>
    unfold get_recurrence_parameters at ih ⊢
    rw [List.foldl_append, ih]
    simp only [List.foldl_cons, List.foldl_nil, List.filter_append]
    by_cases hf : pyContains "FREQ" r
    · rw [if_pos hf]
      have h1 : List.filter isFreqTok [r] = [r] := by
        simp [List.filter, isFreqTok, hf]
      have h2 : List.filter isUntilTok [r] = [] := by
        simp [List.filter, isUntilTok, hf]
      have h3 : List.filter isBydayTok [r] = [] := by
        simp [List.filter, isBydayTok, hf]
      rw [h1, h2, h3, List.append_nil, List.append_nil, List.getLast?_concat]
    · rw [if_neg hf]
      by_cases hu : pyContains "UNTIL" r
      · rw [if_pos hu]
        have h1 : List.filter isFreqTok [r] = [] := by
          simp [List.filter, isFreqTok, hf]
        have h2 : List.filter isUntilTok [r] = [r] := by
          simp [List.filter, isUntilTok, hf, hu]
        have h3 : List.filter isBydayTok [r] = [] := by
          simp [List.filter, isBydayTok, hu]
        rw [h1, h2, h3, List.append_nil, List.append_nil, List.getLast?_concat]
      · rw [if_neg hu]
        by_cases hb : pyContains "BYDAY" r
        · rw [if_pos hb]
          have h1 : List.filter isFreqTok [r] = [] := by
            simp [List.filter, isFreqTok, hf]
          have h2 : List.filter isUntilTok [r] = [] := by
            simp [List.filter, isUntilTok, hu]
          have h3 : List.filter isBydayTok [r] = [r] := by
            simp [List.filter, isBydayTok, hf, hu, hb]
          rw [h1, h2, h3, List.append_nil, List.append_nil, List.getLast?_concat]
        · rw [if_neg hb]
          have h1 : List.filter isFreqTok [r] = [] := by
            simp [List.filter, isFreqTok, hf]
          have h2 : List.filter isUntilTok [r] = [] := by
            simp [List.filter, isUntilTok, hu]
          have h3 : List.filter isBydayTok [r] = [] := by
            simp [List.filter, isBydayTok, hb]
          rw [h1, h2, h3, List.append_nil, List.append_nil, List.append_nil]

/-- Whatever `get_recurrence_parameters` returns in the until slot contains
`"UNTIL"`. -/
theorem gcp_until_contains {recurrence : List String} {f u b : Option String} {s : String}
    (h : get_recurrence_parameters recurrence = (f, u, b)) (hu : u = some s) :
    pyContains "UNTIL" s = true := by
  rw [get_recurrence_parameters_last] at h
  have h2 : (recurrence.filter isUntilTok).getLast? = some s := by
    have := congrArg (fun p => p.2.1) h
    dsimp only at this
    rw [this]
    exact hu
  have hmem := List.mem_of_mem_getLast? h2
  have hp := List.of_mem_filter hmem
  unfold isUntilTok at hp
  simp only [Bool.and_eq_true, Bool.not_eq_true'] at hp
  exact hp.2

theorem gcp_byday_contains {recurrence : List String} {f u b : Option String} {s : String}
    (h : get_recurrence_parameters recurrence = (f, u, b)) (hb : b = some s) :
    pyContains "BYDAY" s = true := by
  rw [get_recurrence_parameters_last] at h
  have h2 : (recurrence.filter isBydayTok).getLast? = some s := by
    have := congrArg (fun p => p.2.2) h
    dsimp only at this
    rw [this]
    exact hb
  have hmem := List.mem_of_mem_getLast? h2
  have hp := List.of_mem_filter hmem
  unfold isBydayTok at hp
  simp only [Bool.and_eq_true, Bool.not_eq_true'] at hp
  exact hp.2

theorem setDay_fields (r : RepeatOn) (s : String) :
    (setDay r s).starts_on = r.starts_on ∧ (setDay r s).ends_on = r.ends_on ∧
    (setDay r s).all_day = r.all_day ∧
    (setDay r s).repeat_this_event = r.repeat_this_event ∧
    (setDay r s).repeat_on = r.repeat_on ∧ (setDay r s).repeat_till = r.repeat_till := by
  unfold setDay
  split <;> exact ⟨rfl, rfl, rfl, rfl, rfl, rfl⟩

theorem gcd_range {c nm : String} (h : google_calendar_days c = some nm) :
    nm ∈ dayNames := by
  unfold google_calendar_days at h
  split at h <;> simp_all [dayNames]

theorem setDay_dayFlag {nm0 nm : String} (h0 : nm0 ∈ dayNames) (h : nm ∈ dayNames)
    (r : RepeatOn) :
    dayFlag (setDay r nm0) nm = (dayFlag r nm || (nm0 == nm)) := by
  fin_cases h0 <;> fin_cases h <;> simp [setDay, dayFlag]

theorem setWeekdayFlags_pres {l : List String} :
    ∀ {r r' : RepeatOn}, setWeekdayFlags r l = .ok r' →
      r'.starts_on = r.starts_on ∧ r'.ends_on = r.ends_on ∧ r'.all_day = r.all_day ∧
      r'.repeat_this_event = r.repeat_this_event ∧ r'.repeat_on = r.repeat_on ∧
      r'.repeat_till = r.repeat_till := by
  induction l with
  | nil =>
    intro r r' h
    cases h
    exact ⟨rfl, rfl, rfl, rfl, rfl, rfl⟩
  | cons c rest ih =>
    intro r r' h
    unfold setWeekdayFlags at h
    cases hc : google_calendar_days c with
    | none => rw [hc] at h; cases h
    | some nm =>
      rw [hc] at h
      have hp := ih h
      have hs := setDay_fields r nm
      exact ⟨hp.1.trans hs.1, hp.2.1.trans hs.2.1, hp.2.2.1.trans hs.2.2.1,
        hp.2.2.2.1.trans hs.2.2.2.1, hp.2.2.2.2.1.trans hs.2.2.2.2.1,
        hp.2.2.2.2.2.trans hs.2.2.2.2.2⟩

theorem setWeekdayFlags_ok {l : List String} :
    ∀ {r : RepeatOn}, (∀ c ∈ l, (google_calendar_days c).isSome) →
      ∃ r', setWeekdayFlags r l = .ok r' ∧
        ∀ nm ∈ dayNames, dayFlag r' nm =
          (dayFlag r nm || l.any (fun c => google_calendar_days c == some nm)) := by
  induction l with
  | nil =>
    intro r _
    refine ⟨r, rfl, ?_⟩
    intro nm _
    simp
  | cons c rest ih =>
    intro r hall
    have hc0 : (google_calendar_days c).isSome := hall c (List.mem_cons_self c rest)
    rw [Option.isSome_iff_exists] at hc0
    obtain ⟨nm0, hc⟩ := hc0
    have hrest : ∀ c' ∈ rest, (google_calendar_days c').isSome := by
      intro c' hc'
      exact hall c' (List.mem_cons_of_mem c hc')
    obtain ⟨r', hok, hflags⟩ := @ih (setDay r nm0) hrest
    refine ⟨r', ?_, ?_⟩
    · unfold setWeekdayFlags
      rw [hc]
      exact hok
    · intro nm hnm
      rw [hflags nm hnm, setDay_dayFlag (gcd_range hc) hnm r]
      simp only [List.any_cons, hc]
      rw [show (some nm0 == some nm) = (nm0 == nm) by simp]
      rw [Bool.or_assoc]


/-- Unfolding of the translator when a recurrence is present. -/
theorem gctro_eq (fuel : Nat) (now start : DateTime) (endOpt : Option DateTime)
    {recurrence : List String} (hrec : recurrence ≠ [])
    {f u b : Option String}
    (hgcp : get_recurrence_parameters recurrence = (f, u, b)) :
    google_calendar_to_repeat_on fuel now start endOpt recurrence =
      Except.bind
        (weeklyBranch u b
          (dailyBranch u
            { seedRepeatOn start endOpt with
              repeat_on := f.bind google_calendar_frequencies }))
        (fun r3 => Except.bind (monthlyBranch fuel now u b r3)
          (fun r4 => .ok (yearlyGuard u r4))) := by
  unfold google_calendar_to_repeat_on
  rw [if_neg hrec, hgcp]
  rfl

theorem dailyBranch_pres (u : Option String) (r : RepeatOn) :
    (dailyBranch u r).all_day = r.all_day ∧
    (dailyBranch u r).repeat_this_event = r.repeat_this_event ∧
    (dailyBranch u r).starts_on = r.starts_on ∧
    (dailyBranch u r).repeat_on = r.repeat_on := by
  unfold dailyBranch
  split <;> exact ⟨rfl, rfl, rfl, rfl⟩

theorem dailyBranch_repeat_till (u : Option String) (r : RepeatOn) :
    (dailyBranch u r).repeat_till = r.repeat_till ∨
    (dailyBranch u r).repeat_till = u.map PyVal.str := by
  unfold dailyBranch
  split
  · exact Or.inr rfl
  · exact Or.inl rfl

theorem weeklyBranch_pres {u b : Option String} {r r' : RepeatOn}
    (h : weeklyBranch u b r = .ok r') :
    r'.all_day = r.all_day ∧ r'.repeat_this_event = r.repeat_this_event ∧
    r'.starts_on = r.starts_on ∧ r'.ends_on = r.ends_on ∧ r'.repeat_on = r.repeat_on := by
  cases b with
  | none =>
    simp only [weeklyBranch] at h
    cases h
    exact ⟨rfl, rfl, rfl, rfl, rfl⟩
  | some bs =>
    simp only [weeklyBranch] at h
    split at h
    · split at h
      · rename_i b0 v rest
        have hp := setWeekdayFlags_pres h
        exact ⟨hp.2.2.1, hp.2.2.2.1, hp.1, hp.2.1, hp.2.2.2.2.1⟩
      · cases h
    · cases h
      exact ⟨rfl, rfl, rfl, rfl, rfl⟩

theorem weeklyBranch_repeat_till {u b : Option String} {r r' : RepeatOn}
    (h : weeklyBranch u b r = .ok r') :
    r'.repeat_till = r.repeat_till ∨ r'.repeat_till = u.map PyVal.str := by
  cases b with
  | none =>
    simp only [weeklyBranch] at h
    cases h
    exact Or.inl rfl
  | some bs =>
    simp only [weeklyBranch] at h
    split at h
    · split at h
      · have hp := setWeekdayFlags_pres h
        exact Or.inr hp.2.2.2.2.2
      · cases h
    · cases h
      exact Or.inl rfl

theorem monthlyBranch_pres {fuel : Nat} {now : DateTime} {u b : Option String}
    {r r' : RepeatOn} (h : monthlyBranch fuel now u b r = .ok r') :
    r'.all_day = r.all_day ∧ r'.repeat_this_event = r.repeat_this_event ∧
    r'.repeat_on = r.repeat_on := by
  cases b with
  | none =>
    simp only [monthlyBranch] at h
    cases h
    exact ⟨rfl, rfl, rfl⟩
  | some bs =>
    simp only [monthlyBranch] at h
    split at h
    · split at h
      · split at h
        · cases h
        · split at h
          · cases h
            exact ⟨rfl, rfl, rfl⟩
          · cases h
      · cases h
    · cases h
      exact ⟨rfl, rfl, rfl⟩

theorem monthlyBranch_repeat_till {fuel : Nat} {now : DateTime} {u b : Option String}
    {r r' : RepeatOn} (h : monthlyBranch fuel now u b r = .ok r') :
    r'.repeat_till = r.repeat_till ∨ r'.repeat_till = u.map PyVal.str := by
  cases b with
  | none =>
    simp only [monthlyBranch] at h
    cases h
    exact Or.inl rfl
  | some bs =>
    simp only [monthlyBranch] at h
    split at h
    · split at h
      · split at h
        · cases h
        · split at h
          · cases h
            exact Or.inr rfl
          · cases h
      · cases h
    · cases h
      exact Or.inl rfl

theorem yearlyGuard_pres (u : Option String) (r : RepeatOn) :
    (yearlyGuard u r).all_day = r.all_day ∧
    (yearlyGuard u r).repeat_this_event = r.repeat_this_event ∧
    (yearlyGuard u r).repeat_on = r.repeat_on ∧
    (yearlyGuard u r).starts_on = r.starts_on := by
  unfold yearlyGuard
  split <;> exact ⟨rfl, rfl, rfl, rfl⟩

/-- The Yearly guard never fires: the value compared is `None` or a raw
`UNTIL` token, never the string `"Yearly"`. -/
theorem yearlyGuard_noop {recurrence : List String} {f u b : Option String}
    (hgcp : get_recurrence_parameters recurrence = (f, u, b)) {r : RepeatOn}
    (htill : r.repeat_till = none ∨ r.repeat_till = u.map PyVal.str) :
    yearlyGuard u r = r := by
  unfold yearlyGuard
  rw [if_neg ?_]
  intro hcon
  rcases htill with h | h
  · rw [h] at hcon
    cases hcon
  · rw [h] at hcon
    cases u with
    | none => cases hcon
    | some s =>
      have hs : s = "Yearly" := by
        have := Option.some.inj hcon
        exact PyVal.str.inj this
      have := gcp_until_contains hgcp rfl
      rw [hs] at this
      revert this
      decide

theorem gctro_noYearly_eq (fuel : Nat) (now start : DateTime) (endOpt : Option DateTime)
    {recurrence : List String} (hrec : recurrence ≠ [])
    {f u b : Option String}
    (hgcp : get_recurrence_parameters recurrence = (f, u, b)) :
    google_calendar_to_repeat_on_noYearly fuel now start endOpt recurrence =
      Except.bind
        (weeklyBranch u b
          (dailyBranch u
            { seedRepeatOn start endOpt with
              repeat_on := f.bind google_calendar_frequencies }))
        (fun r3 => Except.bind (monthlyBranch fuel now u b r3) (fun r4 => .ok r4)) := by
  unfold google_calendar_to_repeat_on_noYearly
  rw [if_neg hrec, hgcp]
  rfl

/-- The dead Yearly clause never changes the result: the translator equals
its guard-free variant on every input. -/
theorem gctro_eq_noYearly (fuel : Nat) (now start : DateTime) (endOpt : Option DateTime)
    (recurrence : List String) :
    google_calendar_to_repeat_on fuel now start endOpt recurrence =
      google_calendar_to_repeat_on_noYearly fuel now start endOpt recurrence := by
  by_cases hrec : recurrence = []
  · subst hrec
    rfl
  · set p := get_recurrence_parameters recurrence with hp
    obtain ⟨f, u, b⟩ := p
    rw [gctro_eq fuel now start endOpt hrec hp.symm,
      gctro_noYearly_eq fuel now start endOpt hrec hp.symm]
    cases hw : weeklyBranch u b
        (dailyBranch u
          { seedRepeatOn start endOpt with
            repeat_on := f.bind google_calendar_frequencies }) with
    | error e => rfl
    | ok r3 =>
      show Except.bind (monthlyBranch fuel now u b r3) (fun r4 => Except.ok (yearlyGuard u r4)) =
        Except.bind (monthlyBranch fuel now u b r3) (fun r4 => Except.ok r4)
      cases hm : monthlyBranch fuel now u b r3 with
      | error e => rfl
      | ok r4 =>
        show Except.ok (yearlyGuard u r4) = Except.ok r4
        rw [yearlyGuard_noop hp.symm ?_]
        have hdtill := dailyBranch_repeat_till u
          { seedRepeatOn start endOpt with
            repeat_on := f.bind google_calendar_frequencies }
        have hwtill := weeklyBranch_repeat_till hw
        have hmtill := monthlyBranch_repeat_till hm
        have hseed : ({ seedRepeatOn start endOpt with
            repeat_on := f.bind google_calendar_frequencies } : RepeatOn).repeat_till = none := rfl
        rcases hmtill with hm1 | hm2
        · rw [hm1]
          rcases hwtill with hw1 | hw2
          · rw [hw1]
            rcases hdtill with hd1 | hd2
            · rw [hd1, hseed]
              exact Or.inl rfl
            · rw [hd2]
              exact Or.inr rfl
          · rw [hw2]
            exact Or.inr rfl
        · rw [hm2]
          exact Or.inr rfl


theorem dailyBranch_skip {u : Option String} {r : RepeatOn}
    (h : r.repeat_on ≠ some "Daily") : dailyBranch u r = r := by
  unfold dailyBranch
  rw [if_neg h]

theorem weeklyBranch_skip {u b : Option String} {r : RepeatOn}
    (h : r.repeat_on ≠ some "Weekly") : weeklyBranch u b r = .ok r := by
  cases b with
  | none => rfl
  | some bs =>
    simp only [weeklyBranch]
    rw [if_neg (fun hc => h hc.2)]

theorem monthlyBranch_skip {fuel : Nat} {now : DateTime} {u b : Option String}
    {r : RepeatOn} (h : r.repeat_on ≠ some "Monthly") :
    monthlyBranch fuel now u b r = .ok r := by
  cases b with
  | none => rfl
  | some bs =>
    simp only [monthlyBranch]
    rw [if_neg (fun hc => h hc.2)]

/-- The Daily branch in full: frequency Daily clears `ends_on` and stores the
raw `UNTIL` token in `repeat_till`. -/
theorem daily_translates (fuel : Nat) (now start : DateTime) (endOpt : Option DateTime)
    {recurrence : List String} {ft : String} {u b : Option String}
    (hrec : recurrence ≠ [])
    (hgcp : get_recurrence_parameters recurrence = (some ft, u, b))
    (hfreq : google_calendar_frequencies ft = some "Daily") :
    google_calendar_to_repeat_on fuel now start endOpt recurrence =
      .ok { seedRepeatOn start endOpt with
            repeat_on := some "Daily", ends_on := none,
            repeat_till := u.map PyVal.str } := by
  rw [gctro_eq fuel now start endOpt hrec hgcp]
  have hr1 : ({ seedRepeatOn start endOpt with
      repeat_on := (some ft).bind google_calendar_frequencies } : RepeatOn) =
      { seedRepeatOn start endOpt with repeat_on := some "Daily" } := by
    rw [show (some ft).bind google_calendar_frequencies = google_calendar_frequencies ft
      from rfl, hfreq]
  rw [hr1]
  have hdaily : dailyBranch u ({ seedRepeatOn start endOpt with
      repeat_on := some "Daily" } : RepeatOn) =
      { seedRepeatOn start endOpt with
        repeat_on := some "Daily", ends_on := none, repeat_till := u.map PyVal.str } := by
    unfold dailyBranch
    rw [if_pos rfl]
  rw [hdaily]
  rw [weeklyBranch_skip (by intro hc; simp at hc)]
  show Except.bind (monthlyBranch fuel now u b _) _ = _
  rw [monthlyBranch_skip (by intro hc; simp at hc)]
  show Except.ok (yearlyGuard u _) = _
  rw [yearlyGuard_noop hgcp (Or.inr rfl)]

/-- The unreachable-Yearly consequence: frequency Yearly leaves `ends_on` and
`repeat_till` at their seeded values. -/
theorem yearly_translates (fuel : Nat) (now start : DateTime) (endOpt : Option DateTime)
    {recurrence : List String} {ft : String} {u b : Option String}
    (hrec : recurrence ≠ [])
    (hgcp : get_recurrence_parameters recurrence = (some ft, u, b))
    (hfreq : google_calendar_frequencies ft = some "Yearly") :
    google_calendar_to_repeat_on fuel now start endOpt recurrence =
      .ok { seedRepeatOn start endOpt with repeat_on := some "Yearly" } := by
  rw [gctro_eq fuel now start endOpt hrec hgcp]
  have hr1 : ({ seedRepeatOn start endOpt with
      repeat_on := (some ft).bind google_calendar_frequencies } : RepeatOn) =
      { seedRepeatOn start endOpt with repeat_on := some "Yearly" } := by
    rw [show (some ft).bind google_calendar_frequencies = google_calendar_frequencies ft
      from rfl, hfreq]
  rw [hr1]
  rw [dailyBranch_skip (by intro hc; simp at hc)]
  rw [weeklyBranch_skip (by intro hc; simp at hc)]
  show Except.bind (monthlyBranch fuel now u b _) _ = _
  rw [monthlyBranch_skip (by intro hc; simp at hc)]
  show Except.ok (yearlyGuard u _) = _
  rw [yearlyGuard_noop hgcp (Or.inl rfl)]


theorem pyContains_ne_empty {n s : String} (hn : n.data ≠ []) (h : pyContains n s = true) :
    s ≠ "" := by
  intro he
  subst he
  have hempty : pyContains n "" = n.data.isEmpty := rfl
  rw [hempty] at h
  cases hd : n.data with
  | nil => exact hn hd
  | cons a as =>
    rw [hd] at h
    simp at h

theorem dayFlag_seed {start : DateTime} {endOpt : Option DateTime}
    {ro : Option String} {rt : Option PyVal} :
    ∀ nm ∈ dayNames,
      dayFlag { seedRepeatOn start endOpt with repeat_on := ro, repeat_till := rt } nm = false := by
  intro nm hnm
  fin_cases hnm <;> rfl

/-- The Weekly branch in full: the flags set are exactly those named by the
`BYDAY` value list. -/
theorem weekly_translates (fuel : Nat) (now start : DateTime) (endOpt : Option DateTime)
    {recurrence : List String} {ft bt b0 v : String} {u : Option String}
    {brest : List String}
    (hrec : recurrence ≠ [])
    (hgcp : get_recurrence_parameters recurrence = (some ft, u, some bt))
    (hfreq : google_calendar_frequencies ft = some "Weekly")
    (hsplit : pySplit bt '=' = b0 :: v :: brest)
    (hall : ∀ c ∈ pySplit v ',', (google_calendar_days c).isSome) :
    ∃ r, google_calendar_to_repeat_on fuel now start endOpt recurrence = .ok r ∧
      r.repeat_on = some "Weekly" ∧ r.repeat_till = u.map PyVal.str ∧
      r.starts_on = start ∧ r.ends_on = endOpt ∧
      ∀ nm ∈ dayNames, dayFlag r nm =
        (pySplit v ',').any (fun c => google_calendar_days c == some nm) := by
  have hr1 : ({ seedRepeatOn start endOpt with
      repeat_on := (some ft).bind google_calendar_frequencies } : RepeatOn) =
      { seedRepeatOn start endOpt with repeat_on := some "Weekly" } := by
    rw [show (some ft).bind google_calendar_frequencies = google_calendar_frequencies ft
      from rfl, hfreq]
  have hbne : bt ≠ "" :=
    pyContains_ne_empty (by decide) (gcp_byday_contains hgcp rfl)
  obtain ⟨r3, hok, hflags⟩ :=
    @setWeekdayFlags_ok (pySplit v ',')
      { seedRepeatOn start endOpt with
        repeat_on := some "Weekly", repeat_till := u.map PyVal.str } hall
  have hw : weeklyBranch u (some bt)
      ({ seedRepeatOn start endOpt with repeat_on := some "Weekly" } : RepeatOn) = .ok r3 := by
    unfold weeklyBranch
    dsimp only
    rw [if_pos ⟨hbne, rfl⟩, hsplit]
    exact hok
  have hpres := setWeekdayFlags_pres hok
  have htr : google_calendar_to_repeat_on fuel now start endOpt recurrence = .ok r3 := by
    rw [gctro_eq fuel now start endOpt hrec hgcp, hr1]
    rw [dailyBranch_skip (by intro hc; simp at hc)]
    rw [hw]
    show Except.bind (monthlyBranch fuel now u (some bt) r3) _ = _
    rw [monthlyBranch_skip (by rw [hpres.2.2.2.2.1]; intro hc; simp at hc)]
    show Except.ok (yearlyGuard u r3) = _
    rw [yearlyGuard_noop hgcp (Or.inr hpres.2.2.2.2.2)]
  refine ⟨r3, htr, hpres.2.2.2.2.1, hpres.2.2.2.2.2, hpres.1, hpres.2.1, ?_⟩
  intro nm hnm
  rw [hflags nm hnm, dayFlag_seed nm hnm]
  simp

/-- The Monthly branch in full: week ordinal and weekday are extracted by the
ordered substring searches, the solver provides `starts_on`, `ends_on` is five
minutes later, and `repeat_till` holds the raw `UNTIL` token. -/
theorem monthly_translates (fuel : Nat) (now start : DateTime) (endOpt : Option DateTime)
    {recurrence : List String} {ft bt b0 v numStr : String} {u : Option String}
    {brest : List String} {dt : DateTime}
    (hrec : recurrence ≠ [])
    (hgcp : get_recurrence_parameters recurrence = (some ft, u, some bt))
    (hfreq : google_calendar_frequencies ft = some "Monthly")
    (hsplit : pySplit bt '=' = b0 :: v :: brest)
    (hnum : firstMatch monthlyNums v = some numStr)
    (hsolve : parse_google_calendar_recurrence_rule fuel now (pyInt numStr)
        ((firstMatch monthlyDays v).bind google_calendar_days) = some dt) :
    google_calendar_to_repeat_on fuel now start endOpt recurrence =
      .ok { seedRepeatOn start endOpt with
            repeat_on := some "Monthly", starts_on := dt,
            ends_on := some (addMinutes 5 dt), repeat_till := u.map PyVal.str } := by
  have hr1 : ({ seedRepeatOn start endOpt with
      repeat_on := (some ft).bind google_calendar_frequencies } : RepeatOn) =
      { seedRepeatOn start endOpt with repeat_on := some "Monthly" } := by
    rw [show (some ft).bind google_calendar_frequencies = google_calendar_frequencies ft
      from rfl, hfreq]
  have hbne : bt ≠ "" :=
    pyContains_ne_empty (by decide) (gcp_byday_contains hgcp rfl)
  have hm : monthlyBranch fuel now u (some bt)
      ({ seedRepeatOn start endOpt with repeat_on := some "Monthly" } : RepeatOn) =
      .ok { seedRepeatOn start endOpt with
            repeat_on := some "Monthly", starts_on := dt,
            ends_on := some (addMinutes 5 dt), repeat_till := u.map PyVal.str } := by
    unfold monthlyBranch
    dsimp only
    rw [if_pos ⟨hbne, rfl⟩, hsplit]
    dsimp only
    rw [hnum]
    dsimp only
    rw [hsolve]
  rw [gctro_eq fuel now start endOpt hrec hgcp, hr1]
  rw [dailyBranch_skip (by intro hc; simp at hc)]
  rw [weeklyBranch_skip (by intro hc; simp at hc)]
  show Except.bind (monthlyBranch fuel now u (some bt) _) _ = _
  rw [hm]
  show Except.ok (yearlyGuard u _) = _
  rw [yearlyGuard_noop hgcp (Or.inr rfl)]

end Frappe

namespace Frappe

/-- `all_day` and `repeat_this_event` always come straight from the seed:
`all_day` iff no end timestamp, `repeat_this_event` iff one is present. -/
theorem gctro_flags {fuel : Nat} {now start : DateTime} {endOpt : Option DateTime}
    {recurrence : List String} {r : RepeatOn}
    (h : google_calendar_to_repeat_on fuel now start endOpt recurrence = .ok r) :
    (r.all_day = true ↔ endOpt = none) ∧
    (r.repeat_this_event = true ↔ endOpt ≠ none) := by
  have hflags : r.all_day = endOpt.isNone ∧ r.repeat_this_event = endOpt.isSome := by
    by_cases hrec : recurrence = []
    · subst hrec
      unfold google_calendar_to_repeat_on at h
      rw [if_pos rfl] at h
      cases h
      exact ⟨rfl, rfl⟩
    · set p := get_recurrence_parameters recurrence with hp
      obtain ⟨f, u, b⟩ := p
      rw [gctro_eq fuel now start endOpt hrec hp.symm] at h
      cases hw : weeklyBranch u b
          (dailyBranch u
            { seedRepeatOn start endOpt with
              repeat_on := f.bind google_calendar_frequencies }) with
      | error e => rw [hw] at h; cases h
      | ok r3 =>
        rw [hw] at h
        have h' : Except.bind (monthlyBranch fuel now u b r3)
            (fun r4 => Except.ok (yearlyGuard u r4)) = Except.ok r := h
        clear h
        cases hm : monthlyBranch fuel now u b r3 with
        | error e =>
          rw [hm] at h'
          rw [show Except.bind (Except.error e)
            (fun r4 => Except.ok (yearlyGuard u r4)) = Except.error e from rfl] at h'
          cases h'
        | ok r4 =>
          rw [hm] at h'
          rw [show Except.bind (Except.ok r4)
            (fun r4 => Except.ok (yearlyGuard u r4)) = Except.ok (yearlyGuard u r4)
            from rfl] at h'
          have hr : r = yearlyGuard u r4 := (Except.ok.inj h').symm
          subst hr
          have h1 := yearlyGuard_pres u r4
          have h2 := monthlyBranch_pres hm
          have h3 := weeklyBranch_pres hw
          have h4 := dailyBranch_pres u
            { seedRepeatOn start endOpt with
              repeat_on := f.bind google_calendar_frequencies }
          constructor
          · rw [h1.1, h2.1, h3.1, h4.1]
            rfl
          · rw [h1.2.1, h2.2.1, h3.2.1, h4.2.1]
            rfl
  refine ⟨?_, ?_⟩
  · rw [hflags.1]
    cases endOpt <;> simp
  · rw [hflags.2]
    cases endOpt <;> simp

/-- A token containing `"FREQ"` with no table entry is looked up with `.get`
and silently yields `repeat_on = None`: the translator returns the plain
seeded record. -/
theorem freq_get_silent (fuel : Nat) (now start : DateTime) (endOpt : Option DateTime)
    {tok : String} (hf : pyContains "FREQ" tok = true)
    (hmiss : google_calendar_frequencies tok = none) :
    google_calendar_to_repeat_on fuel now start endOpt [tok] =
      .ok (seedRepeatOn start endOpt) := by
  have hgcp : get_recurrence_parameters [tok] = (some tok, none, none) := by
    unfold get_recurrence_parameters
    simp [hf]
  rw [gctro_eq fuel now start endOpt (by simp) hgcp]
  have hr1 : ({ seedRepeatOn start endOpt with
      repeat_on := (some tok).bind google_calendar_frequencies } : RepeatOn) =
      seedRepeatOn start endOpt := by
    rw [show (some tok).bind google_calendar_frequencies = google_calendar_frequencies tok
      from rfl, hmiss]
    rfl
  rw [hr1]
  rw [dailyBranch_skip (by intro hc; simp [seedRepeatOn] at hc)]
  rw [weeklyBranch_skip (by intro hc; simp [seedRepeatOn] at hc)]
  show Except.bind (monthlyBranch fuel now none none _) _ = _
  rw [monthlyBranch_skip (by intro hc; simp [seedRepeatOn] at hc)]
  show Except.ok (yearlyGuard none (seedRepeatOn start endOpt)) = _
  unfold yearlyGuard
  rw [if_neg (by intro hc; simp [seedRepeatOn] at hc)]

/-- An unknown weekday code in a Weekly `BYDAY` hits the subscript lookup and
raises `KeyError`. -/
theorem weekly_unknown_code_raises (fuel : Nat) (now start : DateTime)
    (endOpt : Option DateTime) {c : String}
    (hmiss : google_calendar_days c = none)
    (hf : pyContains "FREQ" ("BYDAY=" ++ c) = false)
    (hu : pyContains "UNTIL" ("BYDAY=" ++ c) = false)
    (hsplit : pySplit ("BYDAY=" ++ c) '=' = ["BYDAY", c])
    (hsplit2 : pySplit c ',' = [c]) :
    google_calendar_to_repeat_on fuel now start endOpt
      ["RRULE:FREQ=WEEKLY", "BYDAY=" ++ c] = .error .keyError := by
  have hdata : ("BYDAY=" ++ c).data = 'B' :: 'Y' :: 'D' :: 'A' :: 'Y' :: '=' :: c.data := by
    rw [show ("BYDAY=" ++ c).data = "BYDAY=".data ++ c.data from rfl]
    rfl
  have hb : pyContains "BYDAY" ("BYDAY=" ++ c) = true := by
    unfold pyContains
    rw [hdata]
    simp [isSub, isPre]
  have h1 : pyContains "FREQ" "RRULE:FREQ=WEEKLY" = true := by decide
  have hgcp : get_recurrence_parameters ["RRULE:FREQ=WEEKLY", "BYDAY=" ++ c] =
      (some "RRULE:FREQ=WEEKLY", none, some ("BYDAY=" ++ c)) := by
    unfold get_recurrence_parameters
    simp [h1, hf, hu, hb]
  rw [gctro_eq fuel now start endOpt (by simp) hgcp]
  have hr1 : ({ seedRepeatOn start endOpt with
      repeat_on := (some "RRULE:FREQ=WEEKLY").bind google_calendar_frequencies } : RepeatOn) =
      { seedRepeatOn start endOpt with repeat_on := some "Weekly" } := rfl
  rw [hr1]
  rw [dailyBranch_skip (by intro hc; simp at hc)]
  have hbne : ("BYDAY=" ++ c) ≠ "" := pyContains_ne_empty (by decide) hb
  have hw : weeklyBranch none (some ("BYDAY=" ++ c))
      ({ seedRepeatOn start endOpt with repeat_on := some "Weekly" } : RepeatOn) =
      .error .keyError := by
    unfold weeklyBranch
    dsimp only
    rw [if_pos ⟨hbne, rfl⟩, hsplit]
    dsimp only
    rw [hsplit2]
    unfold setWeekdayFlags
    rw [hmiss]
  rw [hw]
  rfl

/-- An unknown local frequency in the reverse direction is looked up with
`.get`, and with no `repeat_till` the translator silently returns `None`. -/
theorem reverse_unknown_freq_silent {tbl : FreqTable} {doc : EventDoc} {k : String}
    (hk : doc.repeat_on = some k)
    (hkW : k ≠ "Weekly") (hkM : k ≠ "Monthly")
    (hmiss : dictFind k tbl = none)
    (ht : doc.repeat_till = none) :
    repeat_on_to_google_calendar_recurrence_rule tbl doc = .ok (none, tbl) := by
  unfold repeat_on_to_google_calendar_recurrence_rule
  rw [hk]
  rw [show (some k).bind (fun k => dictFind k tbl) = dictFind k tbl from rfl, hmiss]
  rw [if_neg (show ¬some k = some "Weekly" from
    fun hc => hkW (Option.some.inj hc))]
  rw [if_neg (show ¬some k = some "Monthly" from
    fun hc => hkM (Option.some.inj hc))]
  rw [ht]
  rfl

end Frappe

namespace Frappe

/-- `get_week_number` computes a true ceiling: as an integer it equals
`ceil((day_of_month + weekday_of_first) / 7)` over the rationals. -/
theorem get_week_number_ceil (x : Date) :
    (get_week_number x : Int) =
      Int.ceil (((x.d : Rat) + (pyWeekday ⟨x.y, x.m, 1⟩ : Rat)) / 7) := by
  set f := pyWeekday ⟨x.y, x.m, 1⟩ with hf
  have hq : get_week_number x = (x.d + f + 6) / 7 := rfl
  have h1 : x.d + f ≤ 7 * ((x.d + f + 6) / 7) := by omega
  have h2 : 7 * ((x.d + f + 6) / 7) < x.d + f + 7 := by omega
  set z := (x.d + f + 6) / 7 with hz
  have h1q : ((x.d : Rat) + (f : Rat)) ≤ 7 * (z : Rat) := by exact_mod_cast h1
  have h2q : 7 * (z : Rat) < (x.d : Rat) + (f : Rat) + 7 := by exact_mod_cast h2
  rw [hq]
  symm
  rw [Int.ceil_eq_iff]
  rw [Int.cast_natCast]
  constructor
  · rw [lt_div_iff (by norm_num : (0 : Rat) < 7)]
    linarith
  · rw [div_le_iff (by norm_num : (0 : Rat) < 7)]
    linarith

end Frappe

namespace Frappe

/-! ## The claims -/

/-- Counterexample to claim C1: the frequency table is read with `.get`, so an
unrecognized `FREQ` token raises nothing — the translator silently returns the
plain seeded record even though the table lookup misses. -/
theorem C1_counterexample :
    google_calendar_to_repeat_on 100 ⟨⟨2025, 10, 12⟩, 600⟩ ⟨⟨2025, 10, 1⟩, 540⟩ none
      ["RRULE:FREQ=HOURLY"] = .ok (seedRepeatOn ⟨⟨2025, 10, 1⟩, 540⟩ none) ∧
    google_calendar_frequencies "RRULE:FREQ=HOURLY" = none :=
  ⟨rfl, rfl⟩

/-- Claim C1 (amended): the three unknown-key lookups behave differently. An
unrecognized `FREQ` token is read with `.get` and silently yields a record with
no frequency; an unrecognized weekday code in a Weekly `BYDAY` is read with
subscript and raises `KeyError`; an unrecognized local frequency in the reverse
direction is read with `.get` and (absent `repeat_till`) silently returns
`None`. -/
theorem C1_lookup_semantics (fuel : Nat) (now start : DateTime) (endOpt : Option DateTime)
    {tok c k : String} {tbl : FreqTable} {doc : EventDoc}
    (hftok : pyContains "FREQ" tok = true)
    (hfmiss : google_calendar_frequencies tok = none)
    (hdmiss : google_calendar_days c = none)
    (hcf : pyContains "FREQ" ("BYDAY=" ++ c) = false)
    (hcu : pyContains "UNTIL" ("BYDAY=" ++ c) = false)
    (hcs : pySplit ("BYDAY=" ++ c) '=' = ["BYDAY", c])
    (hcs2 : pySplit c ',' = [c])
    (hk : doc.repeat_on = some k) (hkW : k ≠ "Weekly") (hkM : k ≠ "Monthly")
    (hkmiss : dictFind k tbl = none) (ht : doc.repeat_till = none) :
    google_calendar_to_repeat_on fuel now start endOpt [tok] =
      .ok (seedRepeatOn start endOpt) ∧
    google_calendar_to_repeat_on fuel now start endOpt
      ["RRULE:FREQ=WEEKLY", "BYDAY=" ++ c] = .error .keyError ∧
    repeat_on_to_google_calendar_recurrence_rule tbl doc = .ok (none, tbl) :=
  ⟨freq_get_silent fuel now start endOpt hftok hfmiss,
   weekly_unknown_code_raises fuel now start endOpt hdmiss hcf hcu hcs hcs2,
   reverse_unknown_freq_silent hk hkW hkM hkmiss ht⟩

/-- Witness for C1 at concrete inputs: `FREQ=HOURLY` forward, weekday code
`XX`, local frequency `Hourly` backward. -/
theorem C1_lookup_semantics_witness :
    google_calendar_to_repeat_on 100 ⟨⟨2025, 10, 12⟩, 600⟩ ⟨⟨2025, 10, 1⟩, 540⟩ none
      ["RRULE:FREQ=HOURLY"] = .ok (seedRepeatOn ⟨⟨2025, 10, 1⟩, 540⟩ none) ∧
    google_calendar_to_repeat_on 100 ⟨⟨2025, 10, 12⟩, 600⟩ ⟨⟨2025, 10, 1⟩, 540⟩ none
      ["RRULE:FREQ=WEEKLY", "BYDAY=" ++ "XX"] = .error .keyError ∧
    repeat_on_to_google_calendar_recurrence_rule framework_frequencies
      ⟨some "Hourly", ⟨⟨2025, 10, 1⟩, 540⟩, none,
        false, false, false, false, false, false, false⟩ =
      .ok (none, framework_frequencies) :=
  C1_lookup_semantics 100 ⟨⟨2025, 10, 12⟩, 600⟩ ⟨⟨2025, 10, 1⟩, 540⟩ none
    (by decide) rfl rfl (by decide) (by decide) rfl rfl rfl
    (by decide) (by decide) rfl rfl

/-- Counterexample to claim C2: 2021-08-31 is a valid date whose week number
is 6, outside the claimed range `[1,5]`. -/
theorem C2_counterexample :
    (Date.mk 2021 8 31).Valid ∧ get_week_number ⟨2021, 8, 31⟩ = 6 ∧
    ¬ (get_week_number ⟨2021, 8, 31⟩ ≤ 5) := by
  decide

/-- Claim C2 (amended): on every valid date `get_week_number` equals
`ceil((day_of_month + weekday_of_first_of_month) / 7)` and lies in `[1,6]`
(6 is attained, so `[1,5]` is wrong). -/
theorem C2_week_number (x : Date) (hv : x.Valid) :
    (get_week_number x : Int) =
      Int.ceil (((x.d : Rat) + (pyWeekday ⟨x.y, x.m, 1⟩ : Rat)) / 7) ∧
    1 ≤ get_week_number x ∧ get_week_number x ≤ 6 :=
  ⟨get_week_number_ceil x, get_week_number_pos hv.2.2.2.1, get_week_number_le6 hv⟩

/-- Witness for C2 at 2025-10-12. -/
theorem C2_week_number_witness :
    (get_week_number ⟨2025, 10, 12⟩ : Int) =
      Int.ceil ((((12 : Nat) : Rat) + (pyWeekday ⟨2025, 10, 1⟩ : Rat)) / 7) ∧
    1 ≤ get_week_number ⟨2025, 10, 12⟩ ∧ get_week_number ⟨2025, 10, 12⟩ ≤ 6 :=
  C2_week_number ⟨2025, 10, 12⟩ (by decide)

/-- Claim C3: a Monthly recurrence with `BYDAY` present extracts the week
ordinal as the first of `-2,-1,1,2,3,4,5` occurring as a substring, the
weekday as the first of `MO,TU,WE,TH,FR,SA,SU` occurring as a substring,
sets `starts_on` from the Nth-weekday solver, `ends_on` five minutes later,
and `repeat_till` to the `UNTIL` value. -/
theorem C3_monthly (fuel : Nat) (now start : DateTime) (endOpt : Option DateTime)
    {recurrence : List String} {ft bt b0 v numStr : String} {u : Option String}
    {brest : List String} {dt : DateTime}
    (hrec : recurrence ≠ [])
    (hgcp : get_recurrence_parameters recurrence = (some ft, u, some bt))
    (hfreq : google_calendar_frequencies ft = some "Monthly")
    (hsplit : pySplit bt '=' = b0 :: v :: brest)
    (hnum : firstMatch monthlyNums v = some numStr)
    (hsolve : parse_google_calendar_recurrence_rule fuel now (pyInt numStr)
        ((firstMatch monthlyDays v).bind google_calendar_days) = some dt) :
    google_calendar_to_repeat_on fuel now start endOpt recurrence =
      .ok { seedRepeatOn start endOpt with
            repeat_on := some "Monthly", starts_on := dt,
            ends_on := some (addMinutes 5 dt), repeat_till := u.map PyVal.str } :=
  monthly_translates fuel now start endOpt hrec hgcp hfreq hsplit hnum hsolve

/-- Witness for C3: `BYDAY=-1SU` from 2025-10-12 resolves to the last Sunday
of October 2025. -/
theorem C3_monthly_witness :
    google_calendar_to_repeat_on 100 ⟨⟨2025, 10, 12⟩, 600⟩ ⟨⟨2025, 10, 1⟩, 540⟩ none
      ["RRULE:FREQ=MONTHLY", "BYDAY=-1SU"] =
      .ok { seedRepeatOn ⟨⟨2025, 10, 1⟩, 540⟩ none with
            repeat_on := some "Monthly", starts_on := ⟨⟨2025, 10, 26⟩, 600⟩,
            ends_on := some ⟨⟨2025, 10, 26⟩, 605⟩, repeat_till := none } :=
  C3_monthly 100 ⟨⟨2025, 10, 12⟩, 600⟩ ⟨⟨2025, 10, 1⟩, 540⟩ none (by decide)
    (show get_recurrence_parameters ["RRULE:FREQ=MONTHLY", "BYDAY=-1SU"] =
      (some "RRULE:FREQ=MONTHLY", none, some "BYDAY=-1SU") from rfl)
    rfl
    (show pySplit "BYDAY=-1SU" '=' = "BYDAY" :: "-1SU" :: [] from rfl)
    (show firstMatch monthlyNums "-1SU" = some "-1" from rfl)
    (show parse_google_calendar_recurrence_rule 100 ⟨⟨2025, 10, 12⟩, 600⟩ (pyInt "-1")
        ((firstMatch monthlyDays "-1SU").bind google_calendar_days) =
      some ⟨⟨2025, 10, 26⟩, 600⟩ from rfl)

/-- Counterexample to claim C4: with two `FREQ` tokens the LAST one wins, not
the first. -/
theorem C4_counterexample :
    get_recurrence_parameters ["FREQ=DAILY", "FREQ=WEEKLY"] =
      (some "FREQ=WEEKLY", none, none) ∧
    (some "FREQ=WEEKLY" : Option String) ≠ some "FREQ=DAILY" := by
  decide

/-- Claim C4 (amended): `get_recurrence_parameters` keeps, for each key, the
LAST token in list order claimed by that key, where a token containing
`"FREQ"` is claimed by the frequency slot, else one containing `"UNTIL"` by
the until slot, else one containing `"BYDAY"` by the byday slot; tokens
claimed by no key are ignored. -/
theorem C4_last_match (recurrence : List String) :
    get_recurrence_parameters recurrence =
      ((recurrence.filter isFreqTok).getLast?,
       (recurrence.filter isUntilTok).getLast?,
       (recurrence.filter isBydayTok).getLast?) :=
  get_recurrence_parameters_last recurrence

/-- Claim C5: the `repeat_till == "Yearly"` clause is dead — the translator
equals its guard-free variant on every input — and a `FREQ=YEARLY` recurrence
leaves `ends_on` and `repeat_till` at their seeded values. -/
theorem C5_dead_yearly (fuel : Nat) (now start : DateTime) (endOpt : Option DateTime)
    {recurrence : List String} {ft : String} {u b : Option String}
    (hrec : recurrence ≠ [])
    (hgcp : get_recurrence_parameters recurrence = (some ft, u, b))
    (hfreq : google_calendar_frequencies ft = some "Yearly") :
    (∀ rec2 : List String,
      google_calendar_to_repeat_on fuel now start endOpt rec2 =
        google_calendar_to_repeat_on_noYearly fuel now start endOpt rec2) ∧
    google_calendar_to_repeat_on fuel now start endOpt recurrence =
      .ok { seedRepeatOn start endOpt with repeat_on := some "Yearly" } :=
  ⟨fun rec2 => gctro_eq_noYearly fuel now start endOpt rec2,
   yearly_translates fuel now start endOpt hrec hgcp hfreq⟩

/-- Witness for C5 at `RRULE:FREQ=YEARLY`. -/
theorem C5_dead_yearly_witness :
    (∀ rec2 : List String,
      google_calendar_to_repeat_on 100 ⟨⟨2025, 10, 12⟩, 600⟩ ⟨⟨2025, 10, 1⟩, 540⟩ none rec2 =
        google_calendar_to_repeat_on_noYearly 100 ⟨⟨2025, 10, 12⟩, 600⟩
          ⟨⟨2025, 10, 1⟩, 540⟩ none rec2) ∧
    google_calendar_to_repeat_on 100 ⟨⟨2025, 10, 12⟩, 600⟩ ⟨⟨2025, 10, 1⟩, 540⟩ none
      ["RRULE:FREQ=YEARLY"] =
      .ok { seedRepeatOn ⟨⟨2025, 10, 1⟩, 540⟩ none with repeat_on := some "Yearly" } :=
  C5_dead_yearly 100 ⟨⟨2025, 10, 12⟩, 600⟩ ⟨⟨2025, 10, 1⟩, 540⟩ none (by decide)
    (show get_recurrence_parameters ["RRULE:FREQ=YEARLY"] =
      (some "RRULE:FREQ=YEARLY", none, none) from rfl)
    rfl

/-- Claim C6: a Weekly recurrence with `BYDAY` present yields
`repeat_on = "Weekly"`, `repeat_till = UNTIL`, seeded start/end, and exactly
the weekday flags named in the comma-separated `BYDAY` list set true. -/
theorem C6_weekly (fuel : Nat) (now start : DateTime) (endOpt : Option DateTime)
    {recurrence : List String} {ft bt b0 v : String} {u : Option String}
    {brest : List String}
    (hrec : recurrence ≠ [])
    (hgcp : get_recurrence_parameters recurrence = (some ft, u, some bt))
    (hfreq : google_calendar_frequencies ft = some "Weekly")
    (hsplit : pySplit bt '=' = b0 :: v :: brest)
    (hall : ∀ c ∈ pySplit v ',', (google_calendar_days c).isSome) :
    ∃ r, google_calendar_to_repeat_on fuel now start endOpt recurrence = .ok r ∧
      r.repeat_on = some "Weekly" ∧ r.repeat_till = u.map PyVal.str ∧
      r.starts_on = start ∧ r.ends_on = endOpt ∧
      ∀ nm ∈ dayNames, dayFlag r nm =
        (pySplit v ',').any (fun c => google_calendar_days c == some nm) :=
  weekly_translates fuel now start endOpt hrec hgcp hfreq hsplit hall

/-- Witness for C6 at `BYDAY=MO,WE,FR`: monday, wednesday and friday end up
true and the other four flags false. -/
theorem C6_weekly_witness :
    ∃ r, google_calendar_to_repeat_on 100 ⟨⟨2025, 10, 12⟩, 600⟩ ⟨⟨2025, 10, 1⟩, 540⟩
        (some ⟨⟨2025, 10, 1⟩, 600⟩)
        ["RRULE:FREQ=WEEKLY", "UNTIL=20210912T182959Z", "BYDAY=MO,WE,FR"] = .ok r ∧
      r.repeat_on = some "Weekly" ∧
      r.repeat_till = some (PyVal.str "UNTIL=20210912T182959Z") ∧
      r.starts_on = ⟨⟨2025, 10, 1⟩, 540⟩ ∧ r.ends_on = some ⟨⟨2025, 10, 1⟩, 600⟩ ∧
      ∀ nm ∈ dayNames, dayFlag r nm =
        (pySplit "MO,WE,FR" ',').any (fun c => google_calendar_days c == some nm) :=
  C6_weekly 100 ⟨⟨2025, 10, 12⟩, 600⟩ ⟨⟨2025, 10, 1⟩, 540⟩ (some ⟨⟨2025, 10, 1⟩, 600⟩)
    (by decide)
    (show get_recurrence_parameters
        ["RRULE:FREQ=WEEKLY", "UNTIL=20210912T182959Z", "BYDAY=MO,WE,FR"] =
      (some "RRULE:FREQ=WEEKLY", some "UNTIL=20210912T182959Z", some "BYDAY=MO,WE,FR")
      from rfl)
    rfl
    (show pySplit "BYDAY=MO,WE,FR" '=' = "BYDAY" :: "MO,WE,FR" :: [] from rfl)
    (by decide)

/-- Counterexample to claim C7: with `FREQ=DAILY;UNTIL=20250101T000000Z` the
translator stores the RAW token string in `repeat_till`, not the parsed end
date-time the claim names. -/
theorem C7_counterexample :
    google_calendar_to_repeat_on 100 ⟨⟨2025, 10, 12⟩, 600⟩ ⟨⟨2025, 10, 1⟩, 540⟩ none
      ["RRULE:FREQ=DAILY", "UNTIL=20250101T000000Z"] =
      .ok { seedRepeatOn ⟨⟨2025, 10, 1⟩, 540⟩ none with
            repeat_on := some "Daily", ends_on := none,
            repeat_till := some (PyVal.str "UNTIL=20250101T000000Z") } ∧
    (some (PyVal.str "UNTIL=20250101T000000Z") : Option PyVal) ≠
      some (PyVal.dt ⟨⟨2025, 1, 1⟩, 0⟩) :=
  ⟨rfl, by decide⟩

/-- Claim C7 (amended): every Daily recurrence clears `ends_on` and sets
`repeat_till` to the raw `UNTIL` token (a string, not a parsed date-time). -/
theorem C7_daily (fuel : Nat) (now start : DateTime) (endOpt : Option DateTime)
    {recurrence : List String} {ft : String} {u b : Option String}
    (hrec : recurrence ≠ [])
    (hgcp : get_recurrence_parameters recurrence = (some ft, u, b))
    (hfreq : google_calendar_frequencies ft = some "Daily") :
    google_calendar_to_repeat_on fuel now start endOpt recurrence =
      .ok { seedRepeatOn start endOpt with
            repeat_on := some "Daily", ends_on := none,
            repeat_till := u.map PyVal.str } :=
  daily_translates fuel now start endOpt hrec hgcp hfreq

/-- Witness for C7 at a concrete Daily recurrence. -/
theorem C7_daily_witness :
    google_calendar_to_repeat_on 100 ⟨⟨2025, 10, 12⟩, 600⟩ ⟨⟨2025, 10, 1⟩, 540⟩ none
      ["RRULE:FREQ=DAILY", "UNTIL=20210912T182959Z"] =
      .ok { seedRepeatOn ⟨⟨2025, 10, 1⟩, 540⟩ none with
            repeat_on := some "Daily", ends_on := none,
            repeat_till := some (PyVal.str "UNTIL=20210912T182959Z") } :=
  C7_daily 100 ⟨⟨2025, 10, 12⟩, 600⟩ ⟨⟨2025, 10, 1⟩, 540⟩ none (by decide)
    (show get_recurrence_parameters ["RRULE:FREQ=DAILY", "UNTIL=20210912T182959Z"] =
      (some "RRULE:FREQ=DAILY", some "UNTIL=20210912T182959Z", none) from rfl)
    rfl

/-- Claim C8 is a code bug: the reverse translator mutates the module-level
`framework_frequencies` table (the rule dict aliases the table entry), and a
later call on an equal config returns a different result on the mutated table
— the stale `UNTIL` of the first call leaks into the second call's rule. -/
theorem C8_table_mutation :
    repeat_on_to_google_calendar_recurrence_rule framework_frequencies
      ⟨some "Weekly", ⟨⟨2025, 10, 1⟩, 540⟩, some ⟨2025, 12, 31⟩,
        true, false, false, false, false, false, false⟩ =
      .ok (some [("FREQ", RVal.s "WEEKLY"), ("BYDAY", RVal.sl [some "MO"]),
                 ("UNTIL", RVal.dt ⟨2025, 12, 31⟩)],
           [("Daily", [("FREQ", RVal.s "DAILY")]),
            ("Weekly", [("FREQ", RVal.s "WEEKLY"), ("BYDAY", RVal.sl [some "MO"]),
                        ("UNTIL", RVal.dt ⟨2025, 12, 31⟩)]),
            ("Monthly", [("FREQ", RVal.s "MONTHLY")]),
            ("Yearly", [("FREQ", RVal.s "FREQ=YEARLY")])]) ∧
    ([("Daily", [("FREQ", RVal.s "DAILY")]),
      ("Weekly", [("FREQ", RVal.s "WEEKLY"), ("BYDAY", RVal.sl [some "MO"]),
                  ("UNTIL", RVal.dt ⟨2025, 12, 31⟩)]),
      ("Monthly", [("FREQ", RVal.s "MONTHLY")]),
      ("Yearly", [("FREQ", RVal.s "FREQ=YEARLY")])] : FreqTable) ≠
      framework_frequencies ∧
    repeat_on_to_google_calendar_recurrence_rule
      [("Daily", [("FREQ", RVal.s "DAILY")]),
       ("Weekly", [("FREQ", RVal.s "WEEKLY"), ("BYDAY", RVal.sl [some "MO"]),
                   ("UNTIL", RVal.dt ⟨2025, 12, 31⟩)]),
       ("Monthly", [("FREQ", RVal.s "MONTHLY")]),
       ("Yearly", [("FREQ", RVal.s "FREQ=YEARLY")])]
      ⟨some "Weekly", ⟨⟨2025, 10, 1⟩, 540⟩, none,
        true, false, false, false, false, false, false⟩ =
      .ok (some [("FREQ", RVal.s "WEEKLY"), ("BYDAY", RVal.sl [some "MO"]),
                 ("UNTIL", RVal.dt ⟨2025, 12, 31⟩)],
           [("Daily", [("FREQ", RVal.s "DAILY")]),
            ("Weekly", [("FREQ", RVal.s "WEEKLY"), ("BYDAY", RVal.sl [some "MO"]),
                        ("UNTIL", RVal.dt ⟨2025, 12, 31⟩)]),
            ("Monthly", [("FREQ", RVal.s "MONTHLY")]),
            ("Yearly", [("FREQ", RVal.s "FREQ=YEARLY")])]) ∧
    repeat_on_to_google_calendar_recurrence_rule framework_frequencies
      ⟨some "Weekly", ⟨⟨2025, 10, 1⟩, 540⟩, none,
        true, false, false, false, false, false, false⟩ =
      .ok (some [("FREQ", RVal.s "WEEKLY"), ("BYDAY", RVal.sl [some "MO"])],
           [("Daily", [("FREQ", RVal.s "DAILY")]),
            ("Weekly", [("FREQ", RVal.s "WEEKLY"), ("BYDAY", RVal.sl [some "MO"])]),
            ("Monthly", [("FREQ", RVal.s "MONTHLY")]),
            ("Yearly", [("FREQ", RVal.s "FREQ=YEARLY")])]) ∧
    (some [("FREQ", RVal.s "WEEKLY"), ("BYDAY", RVal.sl [some "MO"]),
           ("UNTIL", RVal.dt ⟨2025, 12, 31⟩)] : Option Rule) ≠
      some [("FREQ", RVal.s "WEEKLY"), ("BYDAY", RVal.sl [some "MO"])] :=
  ⟨rfl, by decide, rfl, rfl, by decide⟩

/-- Counterexample to claim C9: the week-stepping loop never terminates at
week-number 0 (week numbers are always at least 1, so the loop walks backward
forever), although 0 is an integer week-number the claim covers. -/
theorem C9_counterexample :
    ("monday" ∈ lowerWeekdays) ∧
    ¬ SolverTerminates ⟨⟨2025, 10, 12⟩, 600⟩ 0 (some "monday") :=
  ⟨by decide, solver_stuck_zero (by decide)⟩

/-- Claim C9 (amended): the solver terminates for every valid lowercase
weekday name and every week-number that is negative (replaced by 4) or in
`[1,5]`; week-number 0 is excluded (it never terminates). -/
theorem C9_solver_termination {now : DateTime} {wn : Int} {name : String}
    (hv : now.date.Valid) (hy3 : 3 ≤ now.date.y)
    (hname : name ∈ lowerWeekdays)
    (hwn : wn < 0 ∨ (1 ≤ wn ∧ wn ≤ 5)) :
    SolverTerminates now wn (some name) :=
  solver_terminates hv hy3 hname hwn

/-- Witness for C9: last Monday (week-number −1) from 2025-10-12. -/
theorem C9_solver_termination_witness :
    SolverTerminates ⟨⟨2025, 10, 12⟩, 600⟩ (-1) (some "monday") :=
  C9_solver_termination (by decide) (by decide) (by decide) (Or.inl (by decide))

/-- Claim C10: whenever the translator succeeds, `all_day` is true exactly
when no end timestamp was supplied and `repeat_this_event` true exactly when
one was, and the seed record takes `starts_on`/`ends_on` from the raw
start/end values. -/
theorem C10_seed_flags {fuel : Nat} {now start : DateTime} {endOpt : Option DateTime}
    {recurrence : List String} {r : RepeatOn}
    (h : google_calendar_to_repeat_on fuel now start endOpt recurrence = .ok r) :
    (r.all_day = true ↔ endOpt = none) ∧
    (r.repeat_this_event = true ↔ endOpt ≠ none) ∧
    (seedRepeatOn start endOpt).starts_on = start ∧
    (seedRepeatOn start endOpt).ends_on = endOpt :=
  ⟨(gctro_flags h).1, (gctro_flags h).2, rfl, rfl⟩

/-- Witness for C10 with an end timestamp supplied. -/
theorem C10_seed_flags_witness :
    ((seedRepeatOn ⟨⟨2025, 10, 1⟩, 540⟩ (some ⟨⟨2025, 10, 1⟩, 600⟩)).all_day = true ↔
      (some ⟨⟨2025, 10, 1⟩, 600⟩ : Option DateTime) = none) ∧
    ((seedRepeatOn ⟨⟨2025, 10, 1⟩, 540⟩ (some ⟨⟨2025, 10, 1⟩, 600⟩)).repeat_this_event = true ↔
      (some ⟨⟨2025, 10, 1⟩, 600⟩ : Option DateTime) ≠ none) ∧
    (seedRepeatOn ⟨⟨2025, 10, 1⟩, 540⟩ (some ⟨⟨2025, 10, 1⟩, 600⟩)).starts_on =
      ⟨⟨2025, 10, 1⟩, 540⟩ ∧
    (seedRepeatOn ⟨⟨2025, 10, 1⟩, 540⟩ (some ⟨⟨2025, 10, 1⟩, 600⟩)).ends_on =
      some ⟨⟨2025, 10, 1⟩, 600⟩ :=
  C10_seed_flags (show google_calendar_to_repeat_on 100 ⟨⟨2025, 10, 12⟩, 600⟩
    ⟨⟨2025, 10, 1⟩, 540⟩ (some ⟨⟨2025, 10, 1⟩, 600⟩) [] =
    .ok (seedRepeatOn ⟨⟨2025, 10, 1⟩, 540⟩ (some ⟨⟨2025, 10, 1⟩, 600⟩)) from rfl)

end Frappe
